import Mathlib

/-!
# ASR MCP gateway

A shallow embedding of the two servers of the repository:

* `src/asr_mcp_batch.cpp` (namespace `AsrMcp.Batch`): audio is accumulated per
  session and submitted to the backend over a pooled HTTP connection;
* `src/asr_mcp_stream.cpp` (namespace `AsrMcp.Stream`): audio is forwarded over a
  WebSocket and the backend's transcript events are de-duplicated and queued.

Byte strings (`std::string`, `std::vector<uint8_t>`, the receive buffer) are lists
of byte values. Mutexes are modelled by making each critical section one atomic
function; threads are modelled by the step relation `Batch.Step`.
Logging to `std::cout` / `std::cerr` has no effect on the state and is left out.
-/

namespace AsrMcp

/-! ## Byte strings -/

/-- A byte string: the byte values of a `std::string` or `std::vector<uint8_t>`. -/
abbrev Bytes := List Nat

/-- The bytes of an ASCII string literal of the source. -/
def str (s : String) : Bytes := s.toList.map Char.toNat

/-- Decimal rendering of an unsigned number, `std::to_string`. -/
def to_string (n : Nat) : Bytes := (Nat.toDigits 10 n).map Char.toNat

/-- The byte `"` (double quote). -/
def DQUOTE : Nat := 34

/-- The byte `\` (backslash). -/
def BACKSLASH : Nat := 92

/-- The byte `\n` (line feed). -/
def NEWLINE : Nat := 10

/-- The byte `\r` (carriage return). -/
def CR : Nat := 13

/-- Scan of `std::string::find`: `s` is the part of the string that starts at index `i`;
the result is the first index at or after `i` where `pat` occurs. -/
def findAt (pat : Bytes) : Bytes → Nat → Option Nat
  | [], i => if pat.isPrefixOf [] then some i else none
  | c :: s, i => if pat.isPrefixOf (c :: s) then some i else findAt pat s (i + 1)

/-- The call `s.find(pat, pos)`; `none` is `std::string::npos`. -/
def find (s pat : Bytes) (pos : Nat) : Option Nat :=
  if pos ≤ s.length then findAt pat (s.drop pos) pos else none

/-- The call `s.substr(pos, n)` for `pos ≤ s.size()`. -/
def substr (s : Bytes) (pos n : Nat) : Bytes := (s.drop pos).take n

/-- The call `s.substr(pos)` for `pos ≤ s.size()`. -/
def substrFrom (s : Bytes) (pos : Nat) : Bytes := s.drop pos

/-- The escape of one byte as the specification words it: a backslash escape for the
double quote, the backslash, the line feed and the carriage return; any other byte is kept. -/
def spec_escape_byte (c : Nat) : Bytes :=
  if c = DQUOTE then str "\\\""
  else if c = BACKSLASH then str "\\\\"
  else if c = NEWLINE then str "\\n"
  else if c = CR then str "\\r"
  else [c]

/-- The JSON escaping of a message as the specification words it. -/
def spec_json_escape (m : Bytes) : Bytes := m.flatMap spec_escape_byte

/-- Every double quote of `l` directly follows a backslash. -/
def QuotesEscaped (l : Bytes) : Prop :=
  ∀ i, l[i]? = some DQUOTE → ∃ j, i = j + 1 ∧ l[j]? = some BACKSLASH

/-- One step of the relay between a backend task and the main loop of a session: the backend
task pushes a fragment at the back of the queue, or the main loop runs its relay part once. -/
inductive RelayEvent where
  | enqueue (fragment : Bytes)
  | iterate
  deriving DecidableEq, Repr

/-- The fragments pushed during a run, in the order of the pushes. -/
def enqueued : List RelayEvent → List Bytes
  | [] => []
  | .enqueue fragment :: rest => fragment :: enqueued rest
  | .iterate :: rest => enqueued rest

/-- A run in which the backend pushes `A`, `B`, `C` while the main loop iterates twice. -/
def relay_example : List RelayEvent :=
  [.enqueue (str "A"), .enqueue (str "B"), .iterate, .enqueue (str "C"), .iterate]

/-- The first occurrence of `pat` in `s` at or after index `pos` starts at index `k`. -/
def FirstAt (s pat : Bytes) (pos k : Nat) : Prop :=
  pos ≤ k ∧ pat <+: s.drop k ∧ ∀ j, pos ≤ j → j < k → ¬ pat <+: s.drop j

/-! ## Batch server (`src/asr_mcp_batch.cpp`) -/

namespace Batch

/-- Size of the receive buffer of `handle_session` (line 32). -/
def BUFFER_SIZE : Nat := 16384

/-- Cap on the accumulated audio, 100 MiB (line 45). -/
def MAX_AUDIO_SIZE : Nat := 100 * 1024 * 1024

/-- Mailbox between the backend threads and the session (lines 61-67). -/
structure StreamContext where
  result_queue : List Bytes
  streaming : Bool
  deriving DecidableEq, Repr

/-- Result of `ASRConnectionPool::acquire` on the list of `in_use_` flags. -/
inductive Acquired where
  /-- the predicate of `cv_.wait` is false: the caller stays suspended -/
  | blocked
  /-- entry `i` was free, is now marked and is returned -/
  | conn (i : Nat) (connections_ : List Bool)
  /-- the final `return nullptr` -/
  | null
  deriving DecidableEq, Repr

/-- The `for` loop of `acquire` (lines 241-246): the first entry that is not in use is
marked in use and returned. -/
def acquire_scan : List Bool → Option (Nat × List Bool)
  | [] => none
  | in_use :: rest =>
    if !in_use then some (0, true :: rest)
    else (acquire_scan rest).map (fun r => (r.1 + 1, in_use :: r.2))

/-- Model of `ASRConnectionPool::acquire` (lines 234-248): waits until some entry is free,
then scans. -/
def acquire (connections_ : List Bool) : Acquired :=
  if connections_.any (fun in_use => !in_use) then
    match acquire_scan connections_ with
    | some (i, connections1) => .conn i connections1
    | none => .null
  else .blocked

/-- Model of `ASRConnectionPool::release` (lines 250-254). -/
def release (connections_ : List Bool) (conn : Nat) : List Bool :=
  connections_.set conn false

/-- Progress of one `std::thread` of `transcription_threads_`. -/
inductive ThreadPhase where
  | spawned
  | requesting
  | done
  deriving DecidableEq, Repr

/-- One background thread started by `handle_transcribe_request` (lines 392-402) or
`handle_finalize_transcription` (lines 463-478) with its captures. -/
structure TranscribeThread where
  asr_conn : Nat
  audio_copy : Bytes
  /-- the thread was started by finalize, whose lambda also sends the completion marker -/
  marker : Bool
  phase : ThreadPhase
  deriving DecidableEq, Repr

/-- The multipart form of `ASRConnection::transcribe_audio` (lines 127-162). -/
structure BackendRequest where
  model : Bytes
  file : Bytes
  stream : Bytes
  language : Bytes
  timestamp_granularities : Bytes
  response_format : Bytes
  vad_filter : Bytes
  deriving DecidableEq, Repr

/-- The form posted by `transcribe_audio(audio_data, audio_len, ...)`. -/
def transcribe_audio_request (audio_data : Bytes) (audio_len : Nat) : BackendRequest :=
  { model := str "votee/stt-v2"
    file := audio_data.take audio_len
    stream := str "True"
    language := str "yue"
    timestamp_granularities := str "[\"segment\"]"
    response_format := str "verbose_json"
    vad_filter := str "True" }

/-- The request issued by a background thread: it calls
`transcribe_audio(audio_copy.data(), audio_copy.size(), stream_ctx_.get())`. -/
def TranscribeThread.request (t : TranscribeThread) : BackendRequest :=
  transcribe_audio_request t.audio_copy t.audio_copy.length

/-- Model of `MCPSession` (lines 260-271); `sent` is the sequence of byte strings passed
to `send` on `client_fd_`. -/
structure MCPSession where
  client_fd_ : Int
  active_ : Bool
  finished_ : Bool
  stream_ctx_ : StreamContext
  accumulated_audio_ : Bytes
  transcription_threads_ : List TranscribeThread
  sent : List Bytes
  deriving DecidableEq, Repr

/-- The constructor `MCPSession(fd, pool)` (lines 274-277). -/
def MCPSession.new (fd : Int) : MCPSession :=
  { client_fd_ := fd
    active_ := true
    finished_ := false
    stream_ctx_ := { result_queue := [], streaming := false }
    accumulated_audio_ := []
    transcription_threads_ := []
    sent := [] }

/-- Model of `send_response` (lines 487-495). -/
def send_response (s : MCPSession) (response : Bytes) : MCPSession :=
  if s.client_fd_ < 0 then s
  else { s with sent := s.sent ++ [response ++ str "\n"] }

/-- Escaping loop of `send_error` (lines 499-506). -/
def escape_error (error : Bytes) : Bytes :=
  error.foldl (fun escaped c =>
    if c = DQUOTE then escaped ++ str "\\\""
    else if c = BACKSLASH then escaped ++ str "\\\\"
    else if c = NEWLINE then escaped ++ str "\\n"
    else if c = CR then escaped ++ str "\\r"
    else escaped ++ [c]) []

/-- The string `ss.str()` that `send_error` passes to `send_response` (lines 508-510). -/
def error_frame (error : Bytes) : Bytes :=
  str "\x7b\"type\":\"error\",\"message\":\"" ++ escape_error error ++ str "\"\x7d\n"

/-- Model of `send_error` (lines 497-511). -/
def send_error (s : MCPSession) (error : Bytes) : MCPSession :=
  send_response s (error_frame error)

/-- The message of the size-limit error (lines 377, 422, 447). -/
def too_large_message : Bytes :=
  str "Audio data too large (max " ++ to_string MAX_AUDIO_SIZE ++ str " bytes)"

/-- The acknowledgement built at lines 431-432. -/
def audio_received_frame (total_size : Nat) : Bytes :=
  str "\x7b\"type\":\"audio_received\",\"bytes\":" ++ to_string total_size ++ str "\x7d"

/-- Model of `handle_audio_stream(data, len)` (lines 411-433); `data` is the list of the
`len` bytes behind the pointer (the caller passes its stack buffer, never a null pointer).
The sum `accumulated_audio_.size() + len` adds the lengths of two objects held in memory
together, so it does not wrap in `size_t` and is taken over the naturals. -/
def handle_audio_stream (s : MCPSession) (data : Bytes) : MCPSession :=
  if data.length = 0 then send_error s (str "Invalid audio data")
  else if s.accumulated_audio_.length + data.length > MAX_AUDIO_SIZE then
    send_error s too_large_message
  else
    let s1 := { s with accumulated_audio_ := s.accumulated_audio_ ++ data }
    let total_size := s1.accumulated_audio_.length
    send_response s1 (audio_received_frame total_size)

/-- Outcome of a command handler that may call `pool_.acquire()`. -/
inductive Handled where
  /-- the handler returned -/
  | returned (s : MCPSession) (pool : List Bool)
  /-- the handler is suspended inside `pool_.acquire()` holding `audio_copy` -/
  | waiting (s : MCPSession) (audio_copy : Bytes) (marker : Bool)
  deriving DecidableEq, Repr

/-- The session state carried by an outcome. -/
def Handled.sess : Handled → MCPSession
  | .returned s _ => s
  | .waiting s _ _ => s

/-- Second half of both handlers (lines 385-408 and 456-484): acquire a pooled connection,
start the background thread and record it in `transcription_threads_`. -/
def start_transcription (s : MCPSession) (pool : List Bool) (audio_copy : Bytes)
    (marker : Bool) : Handled :=
  match acquire pool with
  | .blocked => .waiting s audio_copy marker
  | .null => .returned (send_error s (str "No ASR connection available")) pool
  | .conn i pool1 =>
    .returned { s with transcription_threads_ :=
                  s.transcription_threads_ ++ [⟨i, audio_copy, marker, .spawned⟩] } pool1

/-- Model of `handle_transcribe_request` (lines 361-409). -/
def handle_transcribe_request (s : MCPSession) (pool : List Bool) (_msg : Bytes) : Handled :=
  if s.accumulated_audio_.isEmpty then
    .returned (send_error s (str "No audio data provided")) pool
  else if s.accumulated_audio_.length > MAX_AUDIO_SIZE then
    .returned (send_error s too_large_message) pool
  else
    let audio_copy := s.accumulated_audio_
    start_transcription s pool audio_copy false

/-- Model of `handle_finalize_transcription` (lines 435-485). -/
def handle_finalize_transcription (s : MCPSession) (pool : List Bool) : Handled :=
  if s.accumulated_audio_.isEmpty then
    .returned (send_error s (str "No audio data to transcribe")) pool
  else if s.accumulated_audio_.length > MAX_AUDIO_SIZE then
    .returned (send_error s too_large_message) pool
  else
    let audio_copy := s.accumulated_audio_
    let s1 := { s with accumulated_audio_ := [] }
    start_transcription s1 pool audio_copy true

/-- Command dispatch of `handle_session` on one received frame (lines 333-341). -/
def handle_frame (s : MCPSession) (pool : List Bool) (buffer : Bytes) : Handled :=
  let msg := buffer
  if (find msg (str "\"method\":\"transcribe\"") 0).isSome then
    handle_transcribe_request s pool msg
  else if (find msg (str "\"method\":\"stream_audio\"") 0).isSome then
    .returned (handle_audio_stream s buffer) pool
  else if (find msg (str "\"method\":\"finalize_transcription\"") 0).isSome then
    handle_finalize_transcription s pool
  else .returned s pool

/-- Relay part of one main-loop iteration (lines 344-357). -/
def forward_result (s : MCPSession) : MCPSession :=
  match s.stream_ctx_.result_queue with
  | [] => s
  | result :: rest =>
    let s1 := { s with stream_ctx_ := { s.stream_ctx_ with result_queue := rest } }
    if !result.isEmpty then send_response s1 result else s1

/-- Model of `WriteCallback` (lines 70-79). -/
def WriteCallback (ctx : StreamContext) (chunk : Bytes) : StreamContext :=
  { ctx with result_queue := ctx.result_queue ++ [chunk] }

/-- The initial handshake frame (line 315). -/
def initialized_frame : Bytes :=
  str "\x7b\"type\":\"initialized\",\"server\":\"asr-mcp\",\"version\":\"1.0\"\x7d"

/-- The completion marker (line 475). -/
def complete_frame : Bytes := str "\x7b\"type\":\"transcription_complete\"\x7d"

/-- What a background thread does after `transcribe_audio` returned `success`
(lines 398-401 and 470-477), apart from releasing its connection. -/
def thread_epilogue (s : MCPSession) (t : TranscribeThread) (success : Bool) : MCPSession :=
  let s1 := { s with stream_ctx_ := { s.stream_ctx_ with streaming := false } }
  let s2 := if !success then send_error s1 (str "Transcription request failed") else s1
  if t.marker then send_response s2 complete_frame else s2

/-- A session together with the shared pool and the backend, as seen from one session. -/
structure Sys where
  sess : MCPSession
  /-- the `in_use_` flags of the pool shared with the other sessions -/
  pool : List Bool
  /-- the main loop is suspended in `pool_.acquire()` with this `audio_copy` and marker -/
  pending : Option (Bytes × Bool)
  /-- the requests posted to the backend so far -/
  posted : List BackendRequest
  deriving DecidableEq, Repr

/-- Unpack the outcome of a handler into the system state. -/
def Sys.after (sys : Sys) : Handled → Sys
  | .returned s pool => { sys with sess := s, pool := pool, pending := none }
  | .waiting s audio_copy marker =>
    { sys with sess := s, pending := some (audio_copy, marker) }

/-- Replace the phase of thread `k`. -/
def set_phase (ts : List TranscribeThread) (k : Nat) (p : ThreadPhase) : List TranscribeThread :=
  ts.modify (fun t => { t with phase := p }) k

/-- One atomic step of a session and its environment. -/
inductive Step : Sys → Sys → Prop where
  /-- the main loop receives a frame of `n > 0` bytes and dispatches it -/
  | recv (sys : Sys) (buffer : Bytes) :
      sys.pending = none → 0 < buffer.length → buffer.length ≤ BUFFER_SIZE →
      Step sys (sys.after (handle_frame sys.sess sys.pool buffer))
  /-- a handler suspended in `acquire` is woken up once an entry is free -/
  | wake (sys : Sys) (audio_copy : Bytes) (marker : Bool) :
      sys.pending = some (audio_copy, marker) →
      sys.pool.any (fun in_use => !in_use) = true →
      Step sys (sys.after (start_transcription sys.sess sys.pool audio_copy marker))
  /-- the main loop relays one queued result -/
  | forward (sys : Sys) :
      sys.pending = none → Step sys { sys with sess := forward_result sys.sess }
  /-- a background thread enters `transcribe_audio` and posts its request -/
  | request (sys : Sys) (k : Nat) (t : TranscribeThread) :
      sys.sess.transcription_threads_.get? k = some t → t.phase = .spawned →
      Step sys { sys with
        sess := { sys.sess with
          stream_ctx_ := { sys.sess.stream_ctx_ with streaming := true }
          transcription_threads_ := set_phase sys.sess.transcription_threads_ k .requesting }
        posted := sys.posted ++ [t.request] }
  /-- the backend delivers a chunk of the response body -/
  | chunk (sys : Sys) (k : Nat) (t : TranscribeThread) (data : Bytes) :
      sys.sess.transcription_threads_.get? k = some t → t.phase = .requesting →
      Step sys { sys with
        sess := { sys.sess with stream_ctx_ := WriteCallback sys.sess.stream_ctx_ data } }
  /-- a background thread finishes and releases its connection -/
  | finish (sys : Sys) (k : Nat) (t : TranscribeThread) (success : Bool) :
      sys.sess.transcription_threads_.get? k = some t → t.phase = .requesting →
      Step sys { sys with
        sess := { thread_epilogue sys.sess t success with
          transcription_threads_ := set_phase sys.sess.transcription_threads_ k .done }
        pool := release sys.pool t.asr_conn }
  /-- another session takes or returns a pooled connection -/
  | others (sys : Sys) (pool1 : List Bool) :
      pool1.length = sys.pool.length →
      (∀ t ∈ sys.sess.transcription_threads_, t.phase ≠ .done →
        pool1.get? t.asr_conn = sys.pool.get? t.asr_conn) →
      Step sys { sys with pool := pool1 }

/-- States reachable from a freshly accepted session, after the handshake. -/
inductive Reachable : Sys → Prop where
  | init (fd : Int) (pool : List Bool) : 0 ≤ fd →
      Reachable { sess := send_response (MCPSession.new fd) initialized_frame
                  pool := pool, pending := none, posted := [] }
  | step (sys sys1 : Sys) : Reachable sys → Step sys sys1 → Reachable sys1

/-! ### Concrete sessions used to exercise the theorems -/

/-- A session on descriptor 3 whose accumulation buffer holds exactly `MAX_AUDIO_SIZE` bytes. -/
def session_at_cap : MCPSession :=
  { MCPSession.new 3 with accumulated_audio_ := List.replicate MAX_AUDIO_SIZE 0 }

/-- A frame carrying the `stream_audio` method. -/
def stream_audio_frame : Bytes :=
  str "\x7b\"method\":\"stream_audio\",\"data\":\"abc\"\x7d"

/-- A freshly accepted session on descriptor 3, after the handshake, with a pool of two
connections of which the first is held by another session. -/
def fresh_sys : Sys :=
  { sess := send_response (MCPSession.new 3) initialized_frame
    pool := [true, false]
    pending := none
    posted := [] }

/-- A session on descriptor 3 that has accumulated three bytes. -/
def session_abc : MCPSession :=
  { MCPSession.new 3 with accumulated_audio_ := [97, 98, 99] }

/-- Model of `ASRConnectionPool` (lines 217-222): the `in_use_` flag of each entry of
`connections_`, and `pool_size_`. -/
structure ASRConnectionPool where
  connections_ : List Bool
  pool_size_ : Nat
  deriving DecidableEq, Repr

/-- The constructor `ASRConnectionPool(size)` (lines 225-232); `valid i` tells whether the
connection made in round `i` of the loop initialised. Every entry starts with
`in_use_ = false` (line 89). -/
def ASRConnectionPool.new (size : Nat) (valid : Nat → Bool) : ASRConnectionPool :=
  { connections_ := ((List.range size).filter valid).map (fun _ => false)
    pool_size_ := size }

/-- Pool states reachable from construction by calls of `acquire` that return and calls
of `release` on an entry of the pool. -/
inductive PoolReachable : ASRConnectionPool → Prop where
  | new (size : Nat) (valid : Nat → Bool) : PoolReachable (ASRConnectionPool.new size valid)
  | acquire (p : ASRConnectionPool) (i : Nat) (connections1 : List Bool) :
      PoolReachable p → acquire p.connections_ = .conn i connections1 →
      PoolReachable { p with connections_ := connections1 }
  | release (p : ASRConnectionPool) (i : Nat) :
      PoolReachable p → i < p.connections_.length →
      PoolReachable { p with connections_ := release p.connections_ i }

/-- One relay step on a batch session: `WriteCallback` pushes a chunk, or the main loop
runs lines 344-357. -/
def relay_step (s : MCPSession) : RelayEvent → MCPSession
  | .enqueue fragment => { s with stream_ctx_ := WriteCallback s.stream_ctx_ fragment }
  | .iterate => forward_result s

/-- The frame `{"method":"stream_audio","data":"<data>"}`. -/
def stream_audio_frame_with (data : Bytes) : Bytes :=
  str "\x7b\"method\":\"stream_audio\",\"data\":\"" ++ data ++ str "\"\x7d"

/-- The frame `{"method":"finalize_transcription"}`. -/
def finalize_frame : Bytes := str "\x7b\"method\":\"finalize_transcription\"\x7d"

/-- The main loop receiving the given frames one after the other (lines 317-342), with no
other activity in between; a main loop suspended in `acquire` reads no further frame. -/
def receive_frames (sys : Sys) (frames : List Bytes) : Sys :=
  frames.foldl (fun sys buffer =>
    if sys.pending.isSome then sys
    else sys.after (handle_frame sys.sess sys.pool buffer)) sys

/-- A freshly accepted session on descriptor `fd`, after the handshake. -/
def accepted (fd : Int) (pool : List Bool) : Sys :=
  { sess := send_response (MCPSession.new fd) initialized_frame
    pool := pool
    pending := none
    posted := [] }

/-- Forty-eight bytes of payload (the letter `A`). -/
def data48 : Bytes := List.replicate 48 65

/-! ### Session lifetime -/

/-- Model of `is_finished` (lines 302-304). -/
def is_finished (s : MCPSession) : Bool := s.finished_

/-- What `handle_session` executes between leaving its `while` loop and returning
(lines 358-359): no statement follows the loop. -/
def handle_session_exit (s : MCPSession) : MCPSession := s

/-- Model of `cleanup_finished_sessions` (lines 602-609): the sessions that report
`is_finished` are erased, the others are kept in order. -/
def cleanup_finished_sessions (sessions_ : List MCPSession) : List MCPSession :=
  sessions_.filter (fun session => !is_finished session)

/-! ### Submissions in flight -/

/-- The submissions of a session that are active: started and not yet finished. -/
def active (ts : List TranscribeThread) : List TranscribeThread :=
  ts.filter (fun t => t.phase != .done)

/-- The pool entries captured by the active submissions, in thread order. -/
def active_conns (ts : List TranscribeThread) : List Nat :=
  (active ts).map (fun t => t.asr_conn)

/-- Every active submission holds a pool entry of its own, and that entry is marked in use. -/
def HoldsConnections (sys : Sys) : Prop :=
  (active_conns sys.sess.transcription_threads_).Nodup ∧
  ∀ c ∈ active_conns sys.sess.transcription_threads_, sys.pool.get? c = some true

/-- The frame `{"method":"transcribe"}`. -/
def transcribe_frame : Bytes := str "\x7b\"method\":\"transcribe\"\x7d"

/-- The state after thread `k`, whose record is `t`, has entered `transcribe_audio` (the
target of `Step.request`). -/
def begin_request (sys : Sys) (k : Nat) (t : TranscribeThread) : Sys :=
  { sys with
    sess := { sys.sess with
      stream_ctx_ := { sys.sess.stream_ctx_ with streaming := true }
      transcription_threads_ := set_phase sys.sess.transcription_threads_ k .requesting }
    posted := sys.posted ++ [t.request] }

/-- A session on a pool of two free connections that received one `stream_audio` frame and
then two `transcribe` frames. -/
def two_threads : Sys :=
  receive_frames (accepted 3 [false, false])
    [stream_audio_frame, transcribe_frame, transcribe_frame]

/-- The state of `two_threads` after both of its threads have entered `transcribe_audio`. -/
def two_submissions : Sys :=
  begin_request
    (begin_request two_threads 0 ⟨0, stream_audio_frame, false, .spawned⟩)
    1 ⟨1, stream_audio_frame, false, .spawned⟩

end Batch

/-! ## Duplex server (`src/asr_mcp_stream.cpp`) -/

namespace Stream

/-- Mailbox between the WebSocket reader and the session (lines 102-108). -/
structure StreamContext where
  result_queue : List Bytes
  streaming : Bool
  connected : Bool
  last_message : Bytes
  deriving DecidableEq, Repr

/-- The status test of `handle_message` (lines 240-241). -/
def is_status (message : Bytes) : Bool :=
  (find message (str "ASR started") 0).isSome || (find message (str "ASR Stopped") 0).isSome

/-- The flag `is_final` of `handle_message` (lines 248-252). -/
def is_final (message : Bytes) : Bool :=
  if (find message (str "\"is_final\":false") 0).isSome ||
      (find message (str "\"partial\":true") 0).isSome then false
  else true

/-- Text extraction of `handle_message` (lines 255-264); `none` when one of the nested
searches fails. -/
def extract_text (message : Bytes) : Option Bytes :=
  match find message (str "\"text\"") 0 with
  | none => none
  | some text_pos =>
    match find message (str ":") text_pos with
    | none => none
    | some colon_pos =>
      match find message (str "\"") colon_pos with
      | none => none
      | some value_start =>
        match find message (str "\"") (value_start + 1) with
        | none => none
        | some value_end =>
          some (substr message (value_start + 1) (value_end - value_start - 1))

/-- The variable `non_duplicate` after lines 273-280. -/
def non_duplicate (last_message text : Bytes) : Bytes :=
  if !last_message.isEmpty && decide (text.length ≥ last_message.length) &&
      (substr text 0 last_message.length == last_message) then
    substrFrom text last_message.length
  else text

/-- Escaping loop of `handle_message` (lines 283-293). -/
def escape_text (non_dup : Bytes) : Bytes :=
  non_dup.foldl (fun escaped c =>
    if c = DQUOTE then escaped ++ str "\\\""
    else if c = BACKSLASH then escaped ++ str "\\\\"
    else if c = NEWLINE then escaped ++ str "\\n"
    else escaped ++ [c]) []

/-- The fragment pushed at lines 295-297. -/
def transcription_fragment (non_dup : Bytes) : Bytes :=
  str "\x7b\"type\":\"transcription\",\"text\":\"" ++ escape_text non_dup ++ str "\"\x7d"

/-- The critical section of `handle_message` for a final text (lines 272-302). -/
def enqueue_final (ctx : StreamContext) (text : Bytes) : StreamContext :=
  let non_dup := non_duplicate ctx.last_message text
  let ctx1 :=
    if !non_dup.isEmpty then
      { ctx with result_queue := ctx.result_queue ++ [transcription_fragment non_dup] }
    else ctx
  { ctx1 with last_message := text }

/-- Model of `ASRConnection::handle_message` (lines 235-308); the argument `stream_ctx_`
is `none` for the null pointer. -/
def handle_message (stream_ctx_ : Option StreamContext) (message : Bytes) :
    Option StreamContext :=
  match stream_ctx_ with
  | none => none
  | some ctx =>
    if is_status message then some ctx
    else if (find message (str "\"text\"") 0).isSome then
      let final := is_final message
      match extract_text message with
      | none => some ctx
      | some text =>
        if !final then some ctx
        else some (enqueue_final ctx text)
    else some ctx

/-- Model of `read_loop` (lines 210-227) on the sequence of messages it reads. -/
def read_messages (stream_ctx_ : Option StreamContext) (messages : List Bytes) :
    Option StreamContext :=
  messages.foldl handle_message stream_ctx_

/-- The message `message` is a final event carrying `text`: it passes the status test, has
no flag marking it as a preview, and the extraction of lines 255-264 yields `text`. -/
def FinalEvent (message text : Bytes) : Prop :=
  is_status message = false ∧ is_final message = true ∧ extract_text message = some text

/-! ### Concrete events used to exercise the theorems -/

/-- A connected context that has not emitted any final text yet. -/
def ctx_connected : StreamContext :=
  { result_queue := [], streaming := true, connected := true, last_message := [] }

/-- A backend event with the given text and no flag that marks it as a preview. -/
def final_event (text : String) : Bytes :=
  str "\x7b\"text\":\"" ++ str text ++ str "\",\"is_final\":true\x7d"

/-- A backend preview event with the given text. -/
def preview_event (text : String) : Bytes :=
  str "\x7b\"text\":\"" ++ str text ++ str "\",\"is_final\":false\x7d"

/-- A final event whose text holds a raw carriage return between `a` and `b`. -/
def carriage_return_event : Bytes := str "\x7b\"text\":\"a\rb\"\x7d"

/-- Model of the duplex `MCPSession` (lines 354-361); `sent` is the sequence of byte strings
passed to `send` on `client_fd_`. The WebSocket connection itself is not part of the model. -/
structure MCPSession where
  client_fd_ : Int
  active_ : Bool
  finished_ : Bool
  stream_ctx_ : StreamContext
  sent : List Bytes
  deriving DecidableEq, Repr

/-- The constructor `MCPSession(fd)` (lines 364-367). -/
def MCPSession.new (fd : Int) : MCPSession :=
  { client_fd_ := fd
    active_ := true
    finished_ := false
    stream_ctx_ := { result_queue := [], streaming := false, connected := false,
                     last_message := [] }
    sent := [] }

/-- Model of the duplex `send_response` (lines 489-494). -/
def send_response (s : MCPSession) (response : Bytes) : MCPSession :=
  if s.client_fd_ < 0 then s
  else { s with sent := s.sent ++ [response ++ str "\n"] }

/-- The string that the duplex `send_error` passes to `send_response` (line 497). -/
def error_frame (error : Bytes) : Bytes :=
  str "\x7b\"type\":\"error\",\"message\":\"" ++ error ++ str "\"\x7d"

/-- Model of the duplex `send_error` (lines 496-498). -/
def send_error (s : MCPSession) (error : Bytes) : MCPSession :=
  send_response s (error_frame error)

/-- The messages that the duplex server passes to `send_error` (lines 437, 449, 456, 464,
470 and 479). -/
def error_messages : List Bytes :=
  [str "Failed to connect to ASR service", str "No audio data", str "Invalid format",
   str "Decode failed", str "Connection failed", str "Send failed"]

/-- The push of lines 295-297 on its own: a fragment is appended at the back of the queue. -/
def push_result (ctx : StreamContext) (fragment : Bytes) : StreamContext :=
  { ctx with result_queue := ctx.result_queue ++ [fragment] }

/-- Relay part of one main-loop iteration of the duplex session (lines 418-429). -/
def forward_result (s : MCPSession) : MCPSession :=
  match s.stream_ctx_.result_queue with
  | [] => s
  | result :: rest =>
    let s1 := { s with stream_ctx_ := { s.stream_ctx_ with result_queue := rest } }
    if !result.isEmpty then send_response s1 result else s1

/-- One relay step on a duplex session: the reader pushes a fragment, or the main loop runs
lines 418-429. -/
def relay_step (s : MCPSession) : RelayEvent → MCPSession
  | .enqueue fragment => { s with stream_ctx_ := push_result s.stream_ctx_ fragment }
  | .iterate => forward_result s

/-! ### Base64 -/

/-- The alphabet `BASE64_CHARS` (lines 58-59). -/
def BASE64_CHARS : Bytes :=
  str "ABCDEFGHIJKLMNOPQRSTUVWXYZabcdefghijklmnopqrstuvwxyz0123456789+/"

/-- The byte `=`. -/
def EQUALS : Nat := 61

/-- The value of an `int` expression: the exact result reduced to the 32-bit two's
complement range. -/
def wrap_int32 (x : Int) : Int := (x + 2147483648) % 4294967296 - 2147483648

/-- The loop of `base64_decode` (lines 83-95) on the rest of the input, with the current
`val`, `valb` and `decoded`. `norm` is the reduction applied to the result of each
arithmetic operation on `val` (`wrap_int32` for the `int` of the source); `val << 6` is
the multiplication by 64, and `>>` on an `int` is the arithmetic shift. -/
def base64_decode_loop (norm : Int → Int) : Bytes → Int → Int → Bytes → Bytes
  | [], _, _, decoded => decoded
  | c :: rest, val, valb, decoded =>
    if c = EQUALS then decoded
    else
      match find BASE64_CHARS [c] 0 with
      | none => base64_decode_loop norm rest val valb decoded
      | some pos =>
        let val1 := norm (norm (val * 64) + (pos : Int))
        let valb1 := valb + 6
        if valb1 ≥ 0 then
          base64_decode_loop norm rest val1 (valb1 - 8)
            (decoded ++ [((val1 >>> valb1.toNat) % 256).toNat])
        else base64_decode_loop norm rest val1 valb1 decoded

/-- Model of `base64_decode` (lines 80-97), with `val` a 32-bit `int`. -/
def base64_decode (encoded : Bytes) : Bytes := base64_decode_loop wrap_int32 encoded 0 (-8) []

/-- The same decoder with `val` an unbounded integer. -/
def base64_decode_unbounded (encoded : Bytes) : Bytes :=
  base64_decode_loop id encoded 0 (-8) []

/-- Number of alphabet characters of the input before its first `=`. -/
def alphabet_count (encoded : Bytes) : Nat :=
  ((encoded.takeWhile (fun c => c != EQUALS)).filter
    (fun c => decide (c ∈ BASE64_CHARS))).length

/-- The alphabet character that stands for the six-bit value `i`. -/
def b64char (i : Nat) : Nat := BASE64_CHARS.getD i 0

/-- The standard base64 encoding that the round-trip property refers to (alphabet
`A-Z a-z 0-9 + /`, three bytes to four characters, `=` padding); the repository has no
encoder of its own. -/
def base64_encode : Bytes → Bytes
  | [] => []
  | [x] => [b64char (x / 4), b64char (x % 4 * 16), EQUALS, EQUALS]
  | [x, y] => [b64char (x / 4), b64char (x % 4 * 16 + y / 16), b64char (y % 16 * 4), EQUALS]
  | x :: y :: z :: rest =>
    b64char (x / 4) :: b64char (x % 4 * 16 + y / 16) :: b64char (y % 16 * 4 + z / 64) ::
      b64char (z % 64) :: base64_encode rest

/-! ### Session lifetime -/

/-- Model of the duplex `is_finished` (line 380). -/
def is_finished (s : MCPSession) : Bool := s.finished_

/-- What the duplex `handle_session` executes between leaving its `while` loop and
returning (line 432): `finished_ = true`. -/
def handle_session_exit (s : MCPSession) : MCPSession := { s with finished_ := true }

/-- The sweep of the duplex server (lines 549-553): the sessions that report `is_finished`
are erased, the others are kept in order. -/
def cleanup_finished_sessions (sessions_ : List MCPSession) : List MCPSession :=
  sessions_.filter (fun session => !is_finished session)

/-- The escaping loop of lines 283-293 with its first case, the one for the double quote,
left out. -/
def escape_text_unquoted (non_dup : Bytes) : Bytes :=
  non_dup.foldl (fun escaped c =>
    if c = BACKSLASH then escaped ++ str "\\\\"
    else if c = NEWLINE then escaped ++ str "\\n"
    else escaped ++ [c]) []

/-- A final event whose text, `say "hi"`, holds two escaped double quotes. -/
def escaped_quote_event : Bytes := str "\x7b\"text\":\"say \\\"hi\\\"\"\x7d"

/-! ### Reading fragments back -/

/-- The bytes that the escaping loop of lines 283-293 appends for one byte of its input. -/
def escape_text_byte (c : Nat) : Bytes :=
  if c = DQUOTE then str "\\\""
  else if c = BACKSLASH then str "\\\\"
  else if c = NEWLINE then str "\\n"
  else [c]

/-- Reads an escaped text back: a backslash announces an escaped byte, and `n` after such a
backslash stands for a line feed; `pending` tells that the byte just read was that
backslash. It is the left inverse of the escaping loop and only serves to show that the loop
loses no information. -/
def unescape_loop : Bool → Bytes → Bytes
  | _, [] => []
  | true, c :: rest => (if c = 110 then NEWLINE else c) :: unescape_loop false rest
  | false, c :: rest =>
    if c = BACKSLASH then unescape_loop true rest else c :: unescape_loop false rest

end Stream

end AsrMcp

/-! # Theorems -/

namespace AsrMcp

namespace Batch

/-! ## Frame lemmas: what each operation leaves untouched -/

@[simp] theorem send_response_audio (s : MCPSession) (r : Bytes) :
    (send_response s r).accumulated_audio_ = s.accumulated_audio_ := by
  unfold send_response; split <;> rfl

@[simp] theorem send_error_audio (s : MCPSession) (e : Bytes) :
    (send_error s e).accumulated_audio_ = s.accumulated_audio_ := by
  simp [send_error]

theorem send_response_open (s : MCPSession) (r : Bytes) (h : 0 ≤ s.client_fd_) :
    send_response s r = { s with sent := s.sent ++ [r ++ str "\n"] } := by
  unfold send_response
  rw [if_neg (not_lt.mpr h)]

theorem send_error_open (s : MCPSession) (e : Bytes) (h : 0 ≤ s.client_fd_) :
    send_error s e = { s with sent := s.sent ++ [error_frame e ++ str "\n"] } := by
  unfold send_error
  exact send_response_open s _ h

theorem handle_audio_stream_audio (s : MCPSession) (data : Bytes) :
    (handle_audio_stream s data).accumulated_audio_ =
      if data.length = 0 ∨ s.accumulated_audio_.length + data.length > MAX_AUDIO_SIZE
      then s.accumulated_audio_ else s.accumulated_audio_ ++ data := by
  unfold handle_audio_stream
  by_cases h0 : data.length = 0
  · simp [h0]
  · by_cases h1 : s.accumulated_audio_.length + data.length > MAX_AUDIO_SIZE
    · simp [h0, h1]
    · simp [h0, h1]

theorem foldl_audio_stream (chunks : List Bytes) : ∀ s : MCPSession,
    s.accumulated_audio_.length + chunks.flatten.length ≤ MAX_AUDIO_SIZE →
    (chunks.foldl handle_audio_stream s).accumulated_audio_ =
      s.accumulated_audio_ ++ chunks.flatten := by
  induction chunks with
  | nil => intro s _; simp
  | cons c cs ih =>
    intro s h
    simp only [List.flatten_cons, List.length_append] at h
    rw [List.foldl_cons, ih]
    · rw [handle_audio_stream_audio]
      by_cases h0 : c.length = 0
      · have : c = [] := List.length_eq_zero.mp h0
        simp [this]
      · have h1 : ¬ (s.accumulated_audio_.length + c.length > MAX_AUDIO_SIZE) := by omega
        simp [h0, h1]
    · rw [handle_audio_stream_audio]
      split <;> (try simp only [List.length_append]) <;> omega

/-- A byte string whose fixed head differs from `p` within the first `p.length` bytes does
not start with `p`. -/
theorem not_prefix_append (p a rest : Bytes) (hlen : p.length ≤ a.length)
    (hne : p ≠ a.take p.length) : ¬ p <+: a ++ rest := by
  intro h
  rw [List.prefix_iff_eq_take, List.take_append_of_le_length hlen] at h
  exact hne h

theorem error_frame_not_ack (e rest : Bytes) :
    ¬ str "\x7b\"type\":\"audio_received\"" <+: error_frame e ++ rest := by
  unfold error_frame
  rw [List.append_assoc, List.append_assoc]
  exact not_prefix_append _ _ _ (by decide) (by decide)

theorem session_at_cap_length :
    session_at_cap.accumulated_audio_.length = MAX_AUDIO_SIZE :=
  List.length_replicate _ _

theorem after_sess (sys : Sys) (h : Handled) : (sys.after h).sess = h.sess := by
  cases h <;> rfl

theorem acquire_scan_spec : ∀ (pool : List Bool), pool.any (fun in_use => !in_use) = true →
    ∃ i pool1, acquire_scan pool = some (i, pool1) ∧ pool.get? i = some false ∧
      pool1 = pool.set i true ∧ ∀ j, j < i → pool.get? j = some true := by
  intro pool
  induction pool with
  | nil => intro h; simp at h
  | cons b rest ih =>
    intro h
    cases b with
    | false =>
      refine ⟨0, true :: rest, ?_, ?_, ?_, ?_⟩
      · simp [acquire_scan]
      · rfl
      · rfl
      · intro j hj; omega
    | true =>
      have hrest : rest.any (fun in_use => !in_use) = true := by simpa using h
      obtain ⟨i, pool1, hscan, hget, hset, hbefore⟩ := ih hrest
      refine ⟨i + 1, true :: pool1, ?_, ?_, ?_, ?_⟩
      · simp [acquire_scan, hscan]
      · simpa using hget
      · simp [hset]
      · intro j hj
        cases j with
        | zero => rfl
        | succ k => simpa using hbefore k (by omega)

theorem acquire_free (pool : List Bool) (h : pool.any (fun in_use => !in_use) = true) :
    ∃ i pool1, acquire_scan pool = some (i, pool1) ∧ pool.get? i = some false ∧
      pool1 = pool.set i true ∧ acquire pool = .conn i pool1 := by
  obtain ⟨i, pool1, hscan, hget, hset, _⟩ := acquire_scan_spec pool h
  refine ⟨i, pool1, hscan, hget, hset, ?_⟩
  unfold acquire
  rw [if_pos h, hscan]

theorem acquire_busy (pool : List Bool) (h : pool.any (fun in_use => !in_use) = false) :
    acquire pool = .blocked := by
  unfold acquire
  rw [if_neg (by simp [h])]

/-- With a free entry in the pool, `start_transcription` returns after recording one new
thread that holds the first free connection and the given `audio_copy`. -/
theorem start_transcription_free (s : MCPSession) (pool : List Bool) (audio_copy : Bytes)
    (marker : Bool) (h : pool.any (fun in_use => !in_use) = true) :
    ∃ i pool1, acquire_scan pool = some (i, pool1) ∧ pool.get? i = some false ∧
      pool1 = pool.set i true ∧
      start_transcription s pool audio_copy marker =
        .returned { s with transcription_threads_ :=
          s.transcription_threads_ ++ [⟨i, audio_copy, marker, .spawned⟩] } pool1 := by
  obtain ⟨i, pool1, hscan, hget, hset, hacq⟩ := acquire_free pool h
  refine ⟨i, pool1, hscan, hget, hset, ?_⟩
  unfold start_transcription
  rw [hacq]

theorem start_transcription_busy (s : MCPSession) (pool : List Bool) (audio_copy : Bytes)
    (marker : Bool) (h : pool.any (fun in_use => !in_use) = false) :
    start_transcription s pool audio_copy marker = .waiting s audio_copy marker := by
  unfold start_transcription
  rw [acquire_busy pool h]

theorem start_transcription_audio (s : MCPSession) (pool : List Bool) (audio_copy : Bytes)
    (marker : Bool) :
    (start_transcription s pool audio_copy marker).sess.accumulated_audio_ =
      s.accumulated_audio_ := by
  unfold start_transcription
  cases acquire pool <;> simp [Handled.sess]

theorem handle_transcribe_request_audio (s : MCPSession) (pool : List Bool) (msg : Bytes) :
    (handle_transcribe_request s pool msg).sess.accumulated_audio_ = s.accumulated_audio_ := by
  unfold handle_transcribe_request
  split
  · simp [Handled.sess]
  · split
    · simp [Handled.sess]
    · exact start_transcription_audio _ _ _ _

theorem handle_finalize_transcription_audio (s : MCPSession) (pool : List Bool) :
    (handle_finalize_transcription s pool).sess.accumulated_audio_ = s.accumulated_audio_ ∨
    (handle_finalize_transcription s pool).sess.accumulated_audio_ = [] := by
  unfold handle_finalize_transcription
  split
  · left; simp [Handled.sess]
  · split
    · left; simp [Handled.sess]
    · right; exact start_transcription_audio _ _ _ _

theorem handle_frame_within_cap (s : MCPSession) (pool : List Bool) (buffer : Bytes)
    (h : s.accumulated_audio_.length ≤ MAX_AUDIO_SIZE) :
    (handle_frame s pool buffer).sess.accumulated_audio_.length ≤ MAX_AUDIO_SIZE := by
  unfold handle_frame
  simp only
  split
  · rw [handle_transcribe_request_audio]; exact h
  · split
    · simp only [Handled.sess]
      rw [handle_audio_stream_audio]
      split
      · exact h
      · rename_i hok
        simp only [List.length_append]
        omega
    · split
      · rcases handle_finalize_transcription_audio s pool with h1 | h1
        · rw [h1]; exact h
        · rw [h1]; simp
      · exact h

theorem forward_result_audio (s : MCPSession) :
    (forward_result s).accumulated_audio_ = s.accumulated_audio_ := by
  unfold forward_result
  split
  · rfl
  · simp only
    split <;> simp

theorem thread_epilogue_audio (s : MCPSession) (t : TranscribeThread) (success : Bool) :
    (thread_epilogue s t success).accumulated_audio_ = s.accumulated_audio_ := by
  unfold thread_epilogue
  simp only
  split <;> split <;> simp

theorem step_within_cap (sys sys1 : Sys) (hstep : Step sys sys1)
    (h : sys.sess.accumulated_audio_.length ≤ MAX_AUDIO_SIZE) :
    sys1.sess.accumulated_audio_.length ≤ MAX_AUDIO_SIZE := by
  cases hstep with
  | recv buffer _ _ _ =>
    rw [after_sess]; exact handle_frame_within_cap _ _ _ h
  | wake audio_copy marker _ _ =>
    rw [after_sess, start_transcription_audio]; exact h
  | forward _ => simp only [forward_result_audio]; exact h
  | request k t _ _ => exact h
  | chunk k t data _ _ => exact h
  | finish k t success _ _ => simp only [thread_epilogue_audio]; exact h
  | others pool1 _ _ => exact h

theorem reachable_within_cap (sys : Sys) (h : Reachable sys) :
    sys.sess.accumulated_audio_.length ≤ MAX_AUDIO_SIZE := by
  induction h with
  | init fd pool _ => simp [MCPSession.new]
  | step sys sys1 _ hstep ih => exact step_within_cap sys sys1 hstep ih

/-! ## Accumulation buffer -/

/-- C1: starting from an empty accumulation buffer, applying `handle_audio_stream` to each
chunk of a list of non-empty chunks of total length at most `MAX_AUDIO_SIZE`, in order,
leaves the buffer equal to the concatenation of the chunks in call order. -/
theorem audio_stream_accumulates (s : MCPSession) (chunks : List Bytes)
    (hempty : s.accumulated_audio_ = [])
    (_hne : ∀ c ∈ chunks, c ≠ [])
    (hcap : chunks.flatten.length ≤ MAX_AUDIO_SIZE) :
    (chunks.foldl handle_audio_stream s).accumulated_audio_ = chunks.flatten := by
  have h := foldl_audio_stream chunks s (by rw [hempty]; simpa using hcap)
  rw [h, hempty, List.nil_append]

theorem audio_stream_accumulates_witness :
    ([[1, 2], [3], [4, 5, 6]].foldl handle_audio_stream (MCPSession.new 3)).accumulated_audio_
      = [1, 2, 3, 4, 5, 6] :=
  audio_stream_accumulates (MCPSession.new 3) [[1, 2], [3], [4, 5, 6]] rfl (by decide)
    (by decide)

/-- C2: when the chunk would push the buffer past `MAX_AUDIO_SIZE`, `handle_audio_stream`
changes nothing but the output, to which it adds exactly one error frame; the buffer is
unchanged and nothing written by the call is an `audio_received` acknowledgement. -/
theorem audio_stream_rejects_over_cap (s : MCPSession) (data : Bytes)
    (hfd : 0 ≤ s.client_fd_)
    (hover : s.accumulated_audio_.length + data.length > MAX_AUDIO_SIZE) :
    (handle_audio_stream s data).accumulated_audio_ = s.accumulated_audio_ ∧
    handle_audio_stream s data =
      { s with sent := s.sent ++
          [error_frame (if data.length = 0 then str "Invalid audio data"
                        else too_large_message) ++ str "\n"] } ∧
    ∀ f ∈ (handle_audio_stream s data).sent.drop s.sent.length,
      ¬ str "\x7b\"type\":\"audio_received\"" <+: f := by
  have heq : handle_audio_stream s data =
      { s with sent := s.sent ++
          [error_frame (if data.length = 0 then str "Invalid audio data"
                        else too_large_message) ++ str "\n"] } := by
    unfold handle_audio_stream
    by_cases h0 : data.length = 0
    · rw [if_pos h0, if_pos h0]; exact send_error_open s _ hfd
    · rw [if_neg h0, if_pos hover, if_neg h0]; exact send_error_open s _ hfd
  refine ⟨?_, heq, ?_⟩
  · rw [heq]
  · rw [heq]
    intro f hf
    simp only [List.drop_left, List.mem_singleton] at hf
    rw [hf]
    exact error_frame_not_ack _ _

theorem audio_stream_rejects_over_cap_witness :
    (handle_audio_stream session_at_cap [7]).accumulated_audio_
      = session_at_cap.accumulated_audio_ ∧
    handle_audio_stream session_at_cap [7] =
      { session_at_cap with sent := session_at_cap.sent ++
          [error_frame (if [7].length = 0 then str "Invalid audio data"
                        else too_large_message) ++ str "\n"] } ∧
    ∀ f ∈ (handle_audio_stream session_at_cap [7]).sent.drop session_at_cap.sent.length,
      ¬ str "\x7b\"type\":\"audio_received\"" <+: f :=
  audio_stream_rejects_over_cap session_at_cap [7] (by decide)
    (by rw [session_at_cap_length]; decide)

/-- C3: in every state reachable from a new session by any sequence of received frames
(dispatched to `stream_audio`, `transcribe` or `finalize_transcription`), interleaved with
any activity of the background threads and of the other sessions, the accumulation buffer
holds at most `MAX_AUDIO_SIZE` bytes. -/
theorem buffer_within_cap (sys : Sys) (h : Reachable sys) :
    sys.sess.accumulated_audio_.length ≤ MAX_AUDIO_SIZE :=
  reachable_within_cap sys h

theorem buffer_within_cap_witness :
    (fresh_sys.after (handle_frame fresh_sys.sess fresh_sys.pool
      stream_audio_frame)).sess.accumulated_audio_.length ≤ MAX_AUDIO_SIZE :=
  buffer_within_cap _
    (Reachable.step _ _ (Reachable.init 3 [true, false] (by decide))
      (Step.recv fresh_sys stream_audio_frame rfl (by decide) (by decide)))

/-! ## Transcribe and finalize -/

/-- C4: on an empty accumulation buffer both `handle_transcribe_request` and
`handle_finalize_transcription` return at once: the only change to the session is one error
frame appended to the output, the pool is untouched (no connection is acquired) and no
thread is added to `transcription_threads_`. -/
theorem empty_buffer_rejected (s : MCPSession) (pool : List Bool) (msg : Bytes)
    (hfd : 0 ≤ s.client_fd_) (hempty : s.accumulated_audio_ = []) :
    handle_transcribe_request s pool msg =
      .returned { s with sent := s.sent ++
        [error_frame (str "No audio data provided") ++ str "\n"] } pool ∧
    handle_finalize_transcription s pool =
      .returned { s with sent := s.sent ++
        [error_frame (str "No audio data to transcribe") ++ str "\n"] } pool := by
  constructor
  · unfold handle_transcribe_request
    rw [if_pos (by simp [hempty]), send_error_open s _ hfd]
  · unfold handle_finalize_transcription
    rw [if_pos (by simp [hempty]), send_error_open s _ hfd]

theorem empty_buffer_rejected_witness :
    handle_transcribe_request (MCPSession.new 3) [false, false] [] =
      .returned { MCPSession.new 3 with sent := (MCPSession.new 3).sent ++
        [error_frame (str "No audio data provided") ++ str "\n"] } [false, false] ∧
    handle_finalize_transcription (MCPSession.new 3) [false, false] =
      .returned { MCPSession.new 3 with sent := (MCPSession.new 3).sent ++
        [error_frame (str "No audio data to transcribe") ++ str "\n"] } [false, false] :=
  empty_buffer_rejected (MCPSession.new 3) [false, false] [] (by decide) rfl

/-- C5: for a non-empty accumulation buffer (within the cap, as in every reachable session),
`handle_finalize_transcription` empties the buffer; when the pool has a free entry it
returns having started one thread on the first free connection whose request carries as
`file` exactly the bytes the buffer held before the call; when every entry is busy it is
suspended in `acquire` holding those bytes, and starts that same thread as soon as it is
resumed on a pool with a free entry. -/
theorem finalize_submits_and_clears (s : MCPSession) (pool : List Bool)
    (hne : s.accumulated_audio_ ≠ [])
    (hcap : s.accumulated_audio_.length ≤ MAX_AUDIO_SIZE) :
    (handle_finalize_transcription s pool).sess.accumulated_audio_ = [] ∧
    (pool.any (fun in_use => !in_use) = true →
      ∃ i pool1 t, acquire_scan pool = some (i, pool1) ∧
        t = ⟨i, s.accumulated_audio_, true, .spawned⟩ ∧
        t.request.file = s.accumulated_audio_ ∧
        handle_finalize_transcription s pool =
          .returned { s with accumulated_audio_ := []
                             transcription_threads_ := s.transcription_threads_ ++ [t] }
            pool1) ∧
    (pool.any (fun in_use => !in_use) = false →
      handle_finalize_transcription s pool =
        .waiting { s with accumulated_audio_ := [] } s.accumulated_audio_ true ∧
      ∀ pool2 : List Bool, pool2.any (fun in_use => !in_use) = true →
        ∃ i pool3 t, t = ⟨i, s.accumulated_audio_, true, .spawned⟩ ∧
          t.request.file = s.accumulated_audio_ ∧
          start_transcription { s with accumulated_audio_ := [] } pool2
              s.accumulated_audio_ true =
            .returned { s with accumulated_audio_ := []
                               transcription_threads_ := s.transcription_threads_ ++ [t] }
              pool3) := by
  have hdef : handle_finalize_transcription s pool =
      start_transcription { s with accumulated_audio_ := [] } pool s.accumulated_audio_
        true := by
    unfold handle_finalize_transcription
    rw [if_neg (by simpa using hne), if_neg (by omega)]
  have hfile : ∀ i : Nat, (TranscribeThread.mk i s.accumulated_audio_ true
      .spawned).request.file = s.accumulated_audio_ := by
    intro i
    simp [TranscribeThread.request, transcribe_audio_request]
  refine ⟨?_, ?_, ?_⟩
  · rw [hdef, start_transcription_audio]
  · intro hfree
    obtain ⟨i, pool1, hscan, _, _, hstart⟩ :=
      start_transcription_free { s with accumulated_audio_ := [] } pool
        s.accumulated_audio_ true hfree
    exact ⟨i, pool1, _, hscan, rfl, hfile i, by rw [hdef, hstart]⟩
  · intro hbusy
    refine ⟨by rw [hdef, start_transcription_busy _ _ _ _ hbusy], ?_⟩
    intro pool2 hfree
    obtain ⟨i, pool3, _, _, _, hstart⟩ :=
      start_transcription_free { s with accumulated_audio_ := [] } pool2
        s.accumulated_audio_ true hfree
    exact ⟨i, pool3, _, rfl, hfile i, hstart⟩

theorem finalize_submits_and_clears_witness :
    (handle_finalize_transcription session_abc [true, false]).sess.accumulated_audio_ = [] ∧
    ∃ i pool1 t, acquire_scan [true, false] = some (i, pool1) ∧
      t = ⟨i, session_abc.accumulated_audio_, true, .spawned⟩ ∧
      t.request.file = session_abc.accumulated_audio_ ∧
      handle_finalize_transcription session_abc [true, false] =
        .returned { session_abc with
                      accumulated_audio_ := []
                      transcription_threads_ := session_abc.transcription_threads_ ++ [t] }
          pool1 :=
  have h := finalize_submits_and_clears session_abc [true, false] (by decide) (by decide)
  ⟨h.1, h.2.1 (by decide)⟩

/-- C6: for a non-empty accumulation buffer (within the cap, as in every reachable session),
`handle_transcribe_request` leaves the buffer as it was; when the pool has a free entry it
returns having started one thread on the first free connection whose request carries as
`file` exactly the buffer's bytes (when every entry is busy it is suspended in `acquire`
holding those bytes and starts that thread once resumed); a following `handle_audio_stream`
with a chunk that fits appends to the very same bytes. -/
theorem transcribe_submits_and_keeps (s : MCPSession) (pool : List Bool) (msg : Bytes)
    (hne : s.accumulated_audio_ ≠ [])
    (hcap : s.accumulated_audio_.length ≤ MAX_AUDIO_SIZE) :
    (handle_transcribe_request s pool msg).sess.accumulated_audio_ = s.accumulated_audio_ ∧
    (pool.any (fun in_use => !in_use) = true →
      ∃ i pool1 t, acquire_scan pool = some (i, pool1) ∧
        t = ⟨i, s.accumulated_audio_, false, .spawned⟩ ∧
        t.request.file = s.accumulated_audio_ ∧
        handle_transcribe_request s pool msg =
          .returned { s with transcription_threads_ := s.transcription_threads_ ++ [t] }
            pool1) ∧
    (pool.any (fun in_use => !in_use) = false →
      handle_transcribe_request s pool msg = .waiting s s.accumulated_audio_ false ∧
      ∀ pool2 : List Bool, pool2.any (fun in_use => !in_use) = true →
        ∃ i pool3 t, t = ⟨i, s.accumulated_audio_, false, .spawned⟩ ∧
          t.request.file = s.accumulated_audio_ ∧
          start_transcription s pool2 s.accumulated_audio_ false =
            .returned { s with transcription_threads_ := s.transcription_threads_ ++ [t] }
              pool3) ∧
    (∀ data : Bytes, data ≠ [] →
      s.accumulated_audio_.length + data.length ≤ MAX_AUDIO_SIZE →
      (handle_audio_stream (handle_transcribe_request s pool msg).sess
        data).accumulated_audio_ = s.accumulated_audio_ ++ data) := by
  have hdef : handle_transcribe_request s pool msg =
      start_transcription s pool s.accumulated_audio_ false := by
    unfold handle_transcribe_request
    rw [if_neg (by simpa using hne), if_neg (by omega)]
  have hfile : ∀ i : Nat, (TranscribeThread.mk i s.accumulated_audio_ false
      .spawned).request.file = s.accumulated_audio_ := by
    intro i
    simp [TranscribeThread.request, transcribe_audio_request]
  have hkeep : (handle_transcribe_request s pool msg).sess.accumulated_audio_ =
      s.accumulated_audio_ := handle_transcribe_request_audio s pool msg
  refine ⟨hkeep, ?_, ?_, ?_⟩
  · intro hfree
    obtain ⟨i, pool1, hscan, _, _, hstart⟩ :=
      start_transcription_free s pool s.accumulated_audio_ false hfree
    exact ⟨i, pool1, _, hscan, rfl, hfile i, by rw [hdef, hstart]⟩
  · intro hbusy
    refine ⟨by rw [hdef, start_transcription_busy _ _ _ _ hbusy], ?_⟩
    intro pool2 hfree
    obtain ⟨i, pool3, _, _, _, hstart⟩ :=
      start_transcription_free s pool2 s.accumulated_audio_ false hfree
    exact ⟨i, pool3, _, rfl, hfile i, hstart⟩
  · intro data hdata hfit
    rw [handle_audio_stream_audio, hkeep]
    have h0 : ¬ data.length = 0 := fun h => hdata (List.length_eq_zero.mp h)
    rw [if_neg (by omega)]

theorem transcribe_submits_and_keeps_witness :
    (handle_transcribe_request session_abc [true, false] []).sess.accumulated_audio_ =
      session_abc.accumulated_audio_ ∧
    (∃ i pool1 t, acquire_scan [true, false] = some (i, pool1) ∧
      t = ⟨i, session_abc.accumulated_audio_, false, .spawned⟩ ∧
      t.request.file = session_abc.accumulated_audio_ ∧
      handle_transcribe_request session_abc [true, false] [] =
        .returned { session_abc with
                      transcription_threads_ := session_abc.transcription_threads_ ++ [t] }
          pool1) ∧
    (handle_audio_stream (handle_transcribe_request session_abc [true, false] []).sess
      [100, 101]).accumulated_audio_ = session_abc.accumulated_audio_ ++ [100, 101] :=
  have h := transcribe_submits_and_keeps session_abc [true, false] [] (by decide) (by decide)
  ⟨h.1, h.2.1 (by decide), h.2.2.2 [100, 101] (by decide) (by decide)⟩

end Batch

namespace Stream

/-! ## Text reconciliation -/

theorem extract_text_found (message text : Bytes) (h : extract_text message = some text) :
    (find message (str "\"text\"") 0).isSome = true := by
  unfold extract_text at h
  cases hf : find message (str "\"text\"") 0 with
  | none => rw [hf] at h; simp at h
  | some _ => rfl

/-- A message that is not a status message, carries no preview flag and yields a text is
handled by the critical section `enqueue_final`. -/
theorem handle_message_final (ctx : StreamContext) (message text : Bytes)
    (hstatus : is_status message = false) (hfinal : is_final message = true)
    (htext : extract_text message = some text) :
    handle_message (some ctx) message = some (enqueue_final ctx text) := by
  unfold handle_message
  simp [hstatus, hfinal, htext, extract_text_found message text htext]

/-- The duplicate-prefix test of lines 275-278 is the prefix relation. -/
theorem non_duplicate_eq (last_message text : Bytes) :
    non_duplicate last_message text =
      if last_message <+: text then text.drop last_message.length else text := by
  unfold non_duplicate substr substrFrom
  cases last_message with
  | nil => simp
  | cons c rest =>
    by_cases hp : (c :: rest) <+: text
    · have hlen : (c :: rest).length ≤ text.length := hp.length_le
      have htake : List.take (c :: rest).length text = c :: rest :=
        (List.prefix_iff_eq_take.mp hp).symm
      rw [if_pos hp, if_pos]
      simp only [List.isEmpty_cons, Bool.not_false, Bool.true_and, List.drop_zero,
        Bool.and_eq_true, decide_eq_true_eq, beq_iff_eq]
      exact ⟨hlen, htake⟩
    · rw [if_neg hp, if_neg]
      simp only [List.isEmpty_cons, Bool.not_false, Bool.true_and, List.drop_zero,
        Bool.and_eq_true, decide_eq_true_eq, beq_iff_eq, not_and]
      intro _ htake
      exact hp (List.prefix_iff_eq_take.mpr htake.symm)

theorem enqueue_final_eq (ctx : StreamContext) (text : Bytes) :
    enqueue_final ctx text =
      { ctx with
        result_queue := ctx.result_queue ++
          (if non_duplicate ctx.last_message text = [] then []
           else [transcription_fragment (non_duplicate ctx.last_message text)])
        last_message := text } := by
  unfold enqueue_final
  by_cases h : non_duplicate ctx.last_message text = []
  · simp [h]
  · have h2 : (non_duplicate ctx.last_message text).isEmpty = false := by
      cases hnd : non_duplicate ctx.last_message text with
      | nil => exact absurd hnd h
      | cons _ _ => rfl
    simp [h, h2]

/-- C7: on a final event with extracted text `text`, the delta that `handle_message` computes
against the stored `last_message` is `text` without its first `last_message.length` bytes when
`last_message` is a prefix of `text`, and the whole `text` otherwise; that delta is what is
queued (as one fragment, when it is not empty). -/
theorem final_delta_rule (ctx : StreamContext) (message text : Bytes)
    (hstatus : is_status message = false) (hfinal : is_final message = true)
    (htext : extract_text message = some text) :
    non_duplicate ctx.last_message text =
      (if ctx.last_message <+: text then text.drop ctx.last_message.length else text) ∧
    handle_message (some ctx) message =
      some { ctx with
        result_queue := ctx.result_queue ++
          (if (if ctx.last_message <+: text then text.drop ctx.last_message.length
               else text) = [] then []
           else [transcription_fragment
                  (if ctx.last_message <+: text then text.drop ctx.last_message.length
                   else text)])
        last_message := text } := by
  refine ⟨non_duplicate_eq _ _, ?_⟩
  rw [handle_message_final ctx message text hstatus hfinal htext, enqueue_final_eq,
    non_duplicate_eq]

theorem final_delta_rule_witness :
    (handle_message (some ctx_connected) (final_event "hello") =
      some { ctx_connected with
        result_queue := [transcription_fragment (str "hello")]
        last_message := str "hello" } ∧
     handle_message
        (some { ctx_connected with
          result_queue := [transcription_fragment (str "hello")]
          last_message := str "hello" })
        (final_event "hello world") =
      some { ctx_connected with
        result_queue := [transcription_fragment (str "hello"),
                         transcription_fragment (str " world")]
        last_message := str "hello world" }) ∧
    (handle_message (some ctx_connected) (final_event "foo") =
      some { ctx_connected with
        result_queue := [transcription_fragment (str "foo")]
        last_message := str "foo" } ∧
     handle_message
        (some { ctx_connected with
          result_queue := [transcription_fragment (str "foo")]
          last_message := str "foo" })
        (final_event "bar") =
      some { ctx_connected with
        result_queue := [transcription_fragment (str "foo"),
                         transcription_fragment (str "bar")]
        last_message := str "bar" }) :=
  ⟨⟨(final_delta_rule ctx_connected (final_event "hello") (str "hello")
        (by decide) (by decide) (by decide)).2,
    (final_delta_rule
        { ctx_connected with
          result_queue := [transcription_fragment (str "hello")]
          last_message := str "hello" }
        (final_event "hello world") (str "hello world")
        (by decide) (by decide) (by decide)).2⟩,
   ⟨(final_delta_rule ctx_connected (final_event "foo") (str "foo")
        (by decide) (by decide) (by decide)).2,
    (final_delta_rule
        { ctx_connected with
          result_queue := [transcription_fragment (str "foo")]
          last_message := str "foo" }
        (final_event "bar") (str "bar")
        (by decide) (by decide) (by decide)).2⟩⟩

/-- C8: after `handle_message` has processed a final event from which `text` is extracted,
`last_message` equals `text`, whatever the stored value and the queue were (so also when
the delta is empty and nothing is queued). -/
theorem last_message_updated (ctx : StreamContext) (message text : Bytes)
    (hstatus : is_status message = false) (hfinal : is_final message = true)
    (htext : extract_text message = some text) :
    ∃ ctx1, handle_message (some ctx) message = some ctx1 ∧ ctx1.last_message = text := by
  refine ⟨enqueue_final ctx text, handle_message_final ctx message text hstatus hfinal htext, ?_⟩
  rw [enqueue_final_eq]

theorem last_message_updated_witness :
    ∃ ctx1,
      handle_message (some { ctx_connected with last_message := str "hello" })
        (final_event "hello") = some ctx1 ∧
      ctx1.last_message = str "hello" :=
  last_message_updated { ctx_connected with last_message := str "hello" }
    (final_event "hello") (str "hello") (by decide) (by decide) (by decide)

theorem read_messages_cons (c : Option StreamContext) (m : Bytes) (ms : List Bytes) :
    read_messages c (m :: ms) = read_messages (handle_message c m) ms := rfl

/-- Reading a run of final events whose texts extend one another, starting from a context
whose `last_message` is a prefix of the first text, queues non-empty deltas that extend
`last_message` to the last text. -/
theorem read_messages_chain (messages texts : List Bytes)
    (hmsgs : List.Forall₂ FinalEvent messages texts) : ∀ ctx : StreamContext,
    List.Chain (· <+: ·) ctx.last_message texts →
    ∃ (ctx1 : StreamContext) (deltas : List Bytes),
      read_messages (some ctx) messages = some ctx1 ∧
      ctx1.result_queue = ctx.result_queue ++ deltas.map transcription_fragment ∧
      (∀ d ∈ deltas, d ≠ []) ∧
      ctx.last_message ++ deltas.flatten = texts.getLastD ctx.last_message ∧
      ctx1.last_message = texts.getLastD ctx.last_message := by
  induction hmsgs with
  | nil =>
    intro ctx _
    exact ⟨ctx, [], rfl, by simp, by simp, by simp, by simp⟩
  | @cons m t ms ts hmt _ ih =>
    intro ctx hchain
    obtain ⟨hpre, hrest⟩ := List.chain_cons.mp hchain
    obtain ⟨hstatus, hfinal, htext⟩ := hmt
    have hstep := handle_message_final ctx m t hstatus hfinal htext
    have hnd : non_duplicate ctx.last_message t = t.drop ctx.last_message.length := by
      rw [non_duplicate_eq, if_pos hpre]
    have hsplit : ctx.last_message ++ t.drop ctx.last_message.length = t :=
      List.prefix_iff_eq_append.mp hpre
    have hlast : (enqueue_final ctx t).last_message = t := by rw [enqueue_final_eq]
    have hqueue : (enqueue_final ctx t).result_queue = ctx.result_queue ++
        (if t.drop ctx.last_message.length = [] then []
         else [transcription_fragment (t.drop ctx.last_message.length)]) := by
      rw [enqueue_final_eq, hnd]
    obtain ⟨ctx1, deltas, hrun, hq, hnonempty, hcat, hl⟩ :=
      ih (enqueue_final ctx t) (by rw [hlast]; exact hrest)
    rw [hlast] at hcat hl
    rw [hqueue] at hq
    by_cases hd : t.drop ctx.last_message.length = []
    · refine ⟨ctx1, deltas, ?_, ?_, hnonempty, ?_, ?_⟩
      · rw [read_messages_cons, hstep]; exact hrun
      · rw [hq, if_pos hd, List.append_nil]
      · rw [List.getLastD_cons, ← hcat]
        rw [hd, List.append_nil] at hsplit
        rw [hsplit]
      · rw [List.getLastD_cons]; exact hl
    · refine ⟨ctx1, t.drop ctx.last_message.length :: deltas, ?_, ?_, ?_, ?_, ?_⟩
      · rw [read_messages_cons, hstep]; exact hrun
      · rw [hq, if_neg hd]; simp
      · intro d hmem
        rcases List.mem_cons.mp hmem with h | h
        · rw [h]; exact hd
        · exact hnonempty d h
      · rw [List.getLastD_cons, ← hcat, List.flatten_cons, ← List.append_assoc, hsplit]
      · rw [List.getLastD_cons]; exact hl

/-- C10: a status message (one that contains `ASR started` or `ASR Stopped`) and a message
flagged as not final (one that contains `"is_final":false` or the flag that marks a
preview) leave the whole stream context, hence its queue and `last_message`, unchanged. -/
theorem status_or_preview_ignored (ctx : StreamContext) (message : Bytes)
    (h : (find message (str "ASR started") 0).isSome = true ∨
         (find message (str "ASR Stopped") 0).isSome = true ∨
         (find message (str "\"is_final\":false") 0).isSome = true ∨
         (find message (str "\"partial\":true") 0).isSome = true) :
    handle_message (some ctx) message = some ctx := by
  unfold handle_message
  by_cases hs : is_status message = true
  · simp [hs]
  · have hs1 : is_status message = false := by simpa using hs
    have hnf : is_final message = false := by
      unfold is_status at hs1
      unfold is_final
      rcases h with h | h | h | h
      · simp [h] at hs1
      · simp [h] at hs1
      · simp [h]
      · simp [h]
    rw [hs1, hnf]
    show (if false = true then some ctx
      else if (find message (str "\"text\"") 0).isSome = true then
        (match extract_text message with
          | none => some ctx
          | some text => if (!false) = true then some ctx else some (enqueue_final ctx text))
      else some ctx) = some ctx
    rw [if_neg (by decide)]
    split
    · cases extract_text message <;> rfl
    · rfl

theorem status_or_preview_ignored_witness :
    handle_message (some { ctx_connected with last_message := str "hel" })
        (preview_event "hello") =
      some { ctx_connected with last_message := str "hel" } ∧
    handle_message (some ctx_connected) (str "\x7b\"status\":\"ASR started\"\x7d") =
      some ctx_connected :=
  ⟨status_or_preview_ignored _ (preview_event "hello") (Or.inr (Or.inr (Or.inl (by decide)))),
   status_or_preview_ignored _ _ (Or.inl (by decide))⟩

end Stream

namespace Stream

/-! ## Fragment escaping -/

/-- C11 (defect of the code): on the final event `carriage_return_event` the delta is
`a`, carriage return, `b`; `handle_message` queues one fragment in which the carriage return
is still a raw byte, whereas the claimed fragment carries it as a backslash escape. -/
theorem fragment_keeps_carriage_return :
    handle_message (some ctx_connected) carriage_return_event =
      some { ctx_connected with
        result_queue := [str "\x7b\"type\":\"transcription\",\"text\":\"a\rb\"\x7d"]
        last_message := str "a\rb" } ∧
    spec_json_escape (str "a\rb") = str "a\\rb" ∧
    transcription_fragment (str "a\rb") ≠
      str "\x7b\"type\":\"transcription\",\"text\":\"" ++ spec_json_escape (str "a\rb") ++
        str "\"\x7d" := by
  decide

end Stream

/-! ## Error frames -/

theorem foldl_append_flatMap (f : Nat → Bytes) (l : Bytes) : ∀ init : Bytes,
    l.foldl (fun acc c => acc ++ f c) init = init ++ l.flatMap f := by
  induction l with
  | nil => intro init; simp
  | cons c l ih => intro init; simp [List.foldl_cons, ih, List.flatMap_cons]

theorem newline_not_mem_spec_escape_byte (c : Nat) : NEWLINE ∉ spec_escape_byte c := by
  unfold spec_escape_byte
  split
  · decide
  · split
    · decide
    · split
      · decide
      · split
        · decide
        · rename_i h _
          simp only [List.mem_singleton]
          exact fun hc => h hc.symm

theorem newline_not_mem_spec_json_escape (m : Bytes) : NEWLINE ∉ spec_json_escape m := by
  unfold spec_json_escape
  intro h
  obtain ⟨c, _, hc⟩ := List.mem_flatMap.mp h
  exact newline_not_mem_spec_escape_byte c hc

theorem quotesEscaped_pair (a : Nat) (h : a ≠ DQUOTE) : QuotesEscaped [BACKSLASH, a] := by
  intro i hi
  match i with
  | 0 => simp [BACKSLASH, DQUOTE] at hi
  | 1 =>
    simp only [List.getElem?_cons_succ, List.getElem?_cons_zero, Option.some.injEq] at hi
    exact absurd hi h
  | k + 2 => simp at hi

theorem quotesEscaped_quote : QuotesEscaped [BACKSLASH, DQUOTE] := by
  intro i hi
  match i with
  | 0 => simp [BACKSLASH, DQUOTE] at hi
  | 1 => exact ⟨0, rfl, rfl⟩
  | k + 2 => simp at hi

theorem quotesEscaped_single (a : Nat) (h : a ≠ DQUOTE) : QuotesEscaped [a] := by
  intro i hi
  match i with
  | 0 =>
    simp only [List.getElem?_cons_zero, Option.some.injEq] at hi
    exact absurd hi h
  | k + 1 => simp at hi

theorem quotesEscaped_append (h t : Bytes) (hh : QuotesEscaped h) (ht : QuotesEscaped t) :
    QuotesEscaped (h ++ t) := by
  intro i hi
  by_cases hlt : i < h.length
  · rw [List.getElem?_append_left hlt] at hi
    obtain ⟨j, hij, hj⟩ := hh i hi
    refine ⟨j, hij, ?_⟩
    rw [List.getElem?_append_left (by omega)]
    exact hj
  · rw [List.getElem?_append_right (by omega)] at hi
    obtain ⟨j, hij, hj⟩ := ht (i - h.length) hi
    refine ⟨j + h.length, by omega, ?_⟩
    rw [List.getElem?_append_right (by omega)]
    simpa using hj

theorem quotesEscaped_spec_escape_byte (c : Nat) : QuotesEscaped (spec_escape_byte c) := by
  unfold spec_escape_byte
  split
  · exact quotesEscaped_quote
  · split
    · exact quotesEscaped_pair BACKSLASH (by decide)
    · split
      · exact quotesEscaped_pair 110 (by decide)
      · split
        · exact quotesEscaped_pair 114 (by decide)
        · rename_i h _ _ _
          exact quotesEscaped_single c h

theorem quotesEscaped_spec_json_escape (m : Bytes) : QuotesEscaped (spec_json_escape m) := by
  unfold spec_json_escape
  induction m with
  | nil => intro i hi; simp at hi
  | cons c m ih =>
    rw [List.flatMap_cons]
    exact quotesEscaped_append _ _ (quotesEscaped_spec_escape_byte c) ih

theorem spec_json_escape_plain (m : Bytes)
    (h : ∀ c ∈ m, c ≠ DQUOTE ∧ c ≠ BACKSLASH ∧ c ≠ NEWLINE ∧ c ≠ CR) :
    spec_json_escape m = m := by
  unfold spec_json_escape
  induction m with
  | nil => rfl
  | cons c m ih =>
    obtain ⟨h1, h2, h3, h4⟩ := h c (List.mem_cons_self c m)
    rw [List.flatMap_cons, ih (fun d hd => h d (List.mem_cons_of_mem c hd))]
    simp [spec_escape_byte, h1, h2, h3, h4]

namespace Batch

theorem escape_error_eq (m : Bytes) : escape_error m = spec_json_escape m := by
  unfold escape_error spec_json_escape
  have hbody : (fun (escaped : Bytes) (c : Nat) =>
      if c = DQUOTE then escaped ++ str "\\\""
      else if c = BACKSLASH then escaped ++ str "\\\\"
      else if c = NEWLINE then escaped ++ str "\\n"
      else if c = CR then escaped ++ str "\\r"
      else escaped ++ [c]) = (fun escaped c => escaped ++ spec_escape_byte c) := by
    funext escaped c
    unfold spec_escape_byte
    split
    · rfl
    · split
      · rfl
      · split
        · rfl
        · split <;> rfl
  rw [hbody, foldl_append_flatMap, List.nil_append]

/-- C16: the string that `send_error` builds for a message `m` is the frame
`{"type":"error","message":"E(m)"}` followed by a line feed, where `E` is the escaping of
the specification (backslash escapes for double quote, backslash, line feed and carriage
return, every other byte kept); from its opening to its closing brace the frame holds no
raw line feed, and every double quote of the escaped message directly follows a
backslash. -/
theorem error_frame_escaped (m : Bytes) :
    escape_error m = spec_json_escape m ∧
    error_frame m =
      (str "\x7b\"type\":\"error\",\"message\":\"" ++ spec_json_escape m ++ str "\"\x7d") ++
        [NEWLINE] ∧
    NEWLINE ∉ str "\x7b\"type\":\"error\",\"message\":\"" ++ spec_json_escape m ++ str "\"\x7d" ∧
    QuotesEscaped (spec_json_escape m) := by
  refine ⟨escape_error_eq m, ?_, ?_, quotesEscaped_spec_json_escape m⟩
  · unfold error_frame
    rw [escape_error_eq]
    have : str "\"\x7d\n" = str "\"\x7d" ++ [NEWLINE] := by decide
    rw [this]
    simp only [List.append_assoc]
  · intro h
    rcases List.mem_append.mp h with h1 | h1
    · rcases List.mem_append.mp h1 with h2 | h2
      · revert h2; decide
      · exact newline_not_mem_spec_json_escape m h2
    · revert h1; decide

end Batch

namespace Stream

/-- C17 (counterexample): for the message `a"b` the duplex `send_error` emits the quote as
it is, not as a backslash escape. -/
theorem send_error_raw_quote :
    (send_error (MCPSession.new 3) (str "a\"b")).sent =
      [str "\x7b\"type\":\"error\",\"message\":\"a\"b\"\x7d\n"] ∧
    spec_json_escape (str "a\"b") = str "a\\\"b" ∧
    error_frame (str "a\"b") ≠
      str "\x7b\"type\":\"error\",\"message\":\"" ++ spec_json_escape (str "a\"b") ++
        str "\"\x7d" := by
  decide

/-- C17 (amended): the duplex `send_error` emits `{"type":"error","message":"m"}` with the
message `m` copied byte for byte; for a message free of double quote, backslash, line feed and
carriage return, and so for each of the six messages the server passes, that is the
JSON-escaped form. -/
theorem send_error_verbatim (s : MCPSession) (m : Bytes) (hfd : 0 ≤ s.client_fd_) :
    send_error s m =
      { s with sent := s.sent ++
          [str "\x7b\"type\":\"error\",\"message\":\"" ++ m ++ str "\"\x7d" ++ str "\n"] } ∧
    ((∀ c ∈ m, c ≠ DQUOTE ∧ c ≠ BACKSLASH ∧ c ≠ NEWLINE ∧ c ≠ CR) →
      error_frame m =
        str "\x7b\"type\":\"error\",\"message\":\"" ++ spec_json_escape m ++ str "\"\x7d") ∧
    (∀ e ∈ error_messages,
      error_frame e =
        str "\x7b\"type\":\"error\",\"message\":\"" ++ spec_json_escape e ++ str "\"\x7d") := by
  refine ⟨?_, ?_, ?_⟩
  · unfold send_error send_response error_frame
    rw [if_neg (not_lt.mpr hfd)]
  · intro h
    rw [spec_json_escape_plain m h]
    rfl
  · decide

theorem send_error_verbatim_witness :
    send_error (MCPSession.new 3) (str "Decode failed") =
      { MCPSession.new 3 with sent := (MCPSession.new 3).sent ++
          [str "\x7b\"type\":\"error\",\"message\":\"" ++ str "Decode failed" ++ str "\"\x7d" ++
            str "\n"] } ∧
    error_frame (str "Decode failed") =
      str "\x7b\"type\":\"error\",\"message\":\"" ++ spec_json_escape (str "Decode failed") ++
        str "\"\x7d" :=
  have h := send_error_verbatim (MCPSession.new 3) (str "Decode failed") (by decide)
  ⟨h.1, h.2.1 (by decide)⟩

end Stream

namespace Batch

/-! ## Connection pool -/

theorem acquire_conn_spec (pool : List Bool) (i : Nat) (pool1 : List Bool)
    (h : acquire pool = .conn i pool1) :
    pool.get? i = some false ∧ (∀ j, j < i → pool.get? j = some true) ∧
      pool1 = pool.set i true := by
  by_cases hany : pool.any (fun in_use => !in_use) = true
  · obtain ⟨i0, p0, hscan, hget, hset, hbefore⟩ := acquire_scan_spec pool hany
    unfold acquire at h
    rw [if_pos hany, hscan] at h
    injection h with hi hp
    subst hi; subst hp
    exact ⟨hget, hbefore, hset⟩
  · rw [acquire_busy pool (by simpa using hany)] at h
    cases h

theorem poolReachable_length (p : ASRConnectionPool) (h : PoolReachable p) :
    p.connections_.length ≤ p.pool_size_ := by
  induction h with
  | new size valid =>
    simp only [ASRConnectionPool.new, List.length_map]
    calc ((List.range size).filter valid).length ≤ (List.range size).length :=
          List.length_filter_le _ _
      _ = size := List.length_range size
  | acquire p i c1 _ hacq ih =>
    obtain ⟨_, _, hset⟩ := acquire_conn_spec _ _ _ hacq
    simp only [hset, List.length_set]
    exact ih
  | release p i _ _ ih =>
    simp only [release, List.length_set]
    exact ih

/-- C12: in every pool state reachable from construction by `acquire` and `release` calls,
the number of entries in use is at most the pool size, and whenever `acquire` returns entry
`i` that entry was free just before, every entry before it was in use (it is the first free
one), and the call changes the flag of entry `i` only, from false to true. -/
theorem pool_invariant (p : ASRConnectionPool) (h : PoolReachable p) :
    p.connections_.count true ≤ p.pool_size_ ∧
    ∀ (i : Nat) (connections1 : List Bool), acquire p.connections_ = .conn i connections1 →
      p.connections_.get? i = some false ∧
      (∀ j, j < i → p.connections_.get? j = some true) ∧
      connections1 = p.connections_.set i true ∧
      connections1.get? i = some true ∧
      ∀ j, j ≠ i → connections1.get? j = p.connections_.get? j := by
  refine ⟨le_trans (List.count_le_length _ _) (poolReachable_length p h), ?_⟩
  intro i c1 hacq
  obtain ⟨hget, hbefore, hset⟩ := acquire_conn_spec _ _ _ hacq
  have hlt : i < p.connections_.length := by
    rcases Nat.lt_or_ge i p.connections_.length with hlt | hge
    · exact hlt
    · rw [List.get?_eq_none.mpr hge] at hget
      cases hget
  refine ⟨hget, hbefore, hset, ?_, ?_⟩
  · rw [hset, List.get?_eq_getElem?, List.getElem?_set_self hlt]
  · intro j hj
    rw [hset, List.get?_eq_getElem?, List.get?_eq_getElem?,
      List.getElem?_set_ne (fun h => hj h.symm)]

theorem pool_invariant_witness :
    ({ (ASRConnectionPool.new 3 (fun _ => true)) with
        connections_ := [true, false, false] }).connections_.count true ≤ 3 ∧
    acquire [true, false, false] = .conn 1 [true, true, false] ∧
    ([true, false, false] : List Bool).get? 1 = some false :=
  have hreach : PoolReachable { (ASRConnectionPool.new 3 (fun _ => true)) with
      connections_ := [true, false, false] } :=
    PoolReachable.acquire (ASRConnectionPool.new 3 (fun _ => true)) 0 [true, false, false]
      (PoolReachable.new 3 (fun _ => true)) (by decide)
  have h := pool_invariant _ hreach
  ⟨h.1, by decide, (h.2 1 [true, true, false] (by decide)).1⟩

end Batch

namespace Batch

/-! ## Relay of queued fragments -/

theorem forward_result_nil (s : MCPSession) (h : s.stream_ctx_.result_queue = []) :
    forward_result s = s := by
  unfold forward_result
  rw [h]

theorem forward_result_cons (s : MCPSession) (r : Bytes) (rest : List Bytes)
    (h : s.stream_ctx_.result_queue = r :: rest) (hr : r ≠ []) (hfd : 0 ≤ s.client_fd_) :
    forward_result s =
      { s with stream_ctx_ := { s.stream_ctx_ with result_queue := rest }
               sent := s.sent ++ [r ++ str "\n"] } := by
  unfold forward_result
  rw [h]
  have hne : r.isEmpty = false := by
    cases r with
    | nil => exact absurd rfl hr
    | cons _ _ => rfl
  simp only [hne, Bool.not_false, if_true]
  exact send_response_open _ _ hfd

/-- Relay invariant of the batch session: what has been forwarded, followed by what is
still queued, is what was queued at the start followed by what has been pushed. -/
theorem relay_run (events : List RelayEvent) : ∀ s : MCPSession,
    0 ≤ s.client_fd_ → (∀ f ∈ s.stream_ctx_.result_queue, f ≠ []) →
    (∀ f ∈ enqueued events, f ≠ []) →
    ∃ forwarded : List Bytes,
      (events.foldl relay_step s).sent = s.sent ++ forwarded.map (fun f => f ++ str "\n") ∧
      forwarded ++ (events.foldl relay_step s).stream_ctx_.result_queue =
        s.stream_ctx_.result_queue ++ enqueued events := by
  induction events with
  | nil => intro s _ _ _; exact ⟨[], by simp, by simp [enqueued]⟩
  | cons e rest ih =>
    intro s hfd hq hne
    cases e with
    | enqueue f =>
      have hf : f ≠ [] := hne f (by simp [enqueued])
      obtain ⟨fw, hsent, hqueue⟩ := ih (relay_step s (.enqueue f)) hfd
        (by
          intro g hg
          simp only [relay_step, WriteCallback, List.mem_append, List.mem_singleton] at hg
          rcases hg with hg | hg
          · exact hq g hg
          · rw [hg]; exact hf)
        (fun g hg => hne g (by simp [enqueued, hg]))
      refine ⟨fw, hsent, ?_⟩
      rw [List.foldl_cons, hqueue]
      simp [relay_step, WriteCallback, enqueued]
    | iterate =>
      cases hqs : s.stream_ctx_.result_queue with
      | nil =>
        have hstep : relay_step s .iterate = s := forward_result_nil s hqs
        obtain ⟨fw, hsent, hqueue⟩ := ih s hfd hq (fun g hg => hne g (by simpa [enqueued] using hg))
        refine ⟨fw, ?_, ?_⟩
        · rw [List.foldl_cons, hstep]; exact hsent
        · rw [List.foldl_cons, hstep, hqueue, hqs]; simp [enqueued]
      | cons r tl =>
        have hr : r ≠ [] := hq r (by rw [hqs]; exact List.mem_cons_self r tl)
        have hstep : relay_step s .iterate =
            { s with stream_ctx_ := { s.stream_ctx_ with result_queue := tl }
                     sent := s.sent ++ [r ++ str "\n"] } :=
          forward_result_cons s r tl hqs hr hfd
        obtain ⟨fw, hsent, hqueue⟩ := ih (relay_step s .iterate) (by rw [hstep]; exact hfd)
          (by
            intro g hg
            rw [hstep] at hg
            exact hq g (by rw [hqs]; exact List.mem_cons_of_mem r hg))
          (fun g hg => hne g (by simpa [enqueued] using hg))
        refine ⟨r :: fw, ?_, ?_⟩
        · rw [List.foldl_cons, hsent, hstep]; simp
        · rw [List.foldl_cons, List.cons_append, hqueue, hstep]; simp [enqueued]

theorem forward_result_front (s : MCPSession) (hfd : 0 ≤ s.client_fd_) :
    (forward_result s).stream_ctx_.result_queue = s.stream_ctx_.result_queue.tail ∧
    ((forward_result s).sent = s.sent ∨
      ∃ front, s.stream_ctx_.result_queue.head? = some front ∧
        (forward_result s).sent = s.sent ++ [front ++ str "\n"]) := by
  cases hqs : s.stream_ctx_.result_queue with
  | nil => rw [forward_result_nil s hqs, hqs]; exact ⟨rfl, Or.inl rfl⟩
  | cons r tl =>
    by_cases hr : r = []
    · have : forward_result s =
          { s with stream_ctx_ := { s.stream_ctx_ with result_queue := tl } } := by
        unfold forward_result
        rw [hqs, hr]
        rfl
      rw [this]
      exact ⟨rfl, Or.inl rfl⟩
    · rw [forward_result_cons s r tl hqs hr hfd]
      exact ⟨rfl, Or.inr ⟨r, rfl, rfl⟩⟩

end Batch

namespace Stream

/-! ## Relay of queued fragments -/

theorem duplex_send_response_open (s : MCPSession) (r : Bytes) (h : 0 ≤ s.client_fd_) :
    send_response s r = { s with sent := s.sent ++ [r ++ str "\n"] } := by
  unfold send_response
  rw [if_neg (not_lt.mpr h)]

theorem duplex_forward_result_nil (s : MCPSession) (h : s.stream_ctx_.result_queue = []) :
    forward_result s = s := by
  unfold forward_result
  rw [h]

theorem duplex_forward_result_cons (s : MCPSession) (r : Bytes) (rest : List Bytes)
    (h : s.stream_ctx_.result_queue = r :: rest) (hr : r ≠ []) (hfd : 0 ≤ s.client_fd_) :
    forward_result s =
      { s with stream_ctx_ := { s.stream_ctx_ with result_queue := rest }
               sent := s.sent ++ [r ++ str "\n"] } := by
  unfold forward_result
  rw [h]
  have hne : r.isEmpty = false := by
    cases r with
    | nil => exact absurd rfl hr
    | cons _ _ => rfl
  simp only [hne, Bool.not_false, if_true]
  exact duplex_send_response_open _ _ hfd

/-- Relay invariant of the duplex session: what has been forwarded, followed by what is
still queued, is what was queued at the start followed by what has been pushed. -/
theorem duplex_relay_run (events : List RelayEvent) : ∀ s : MCPSession,
    0 ≤ s.client_fd_ → (∀ f ∈ s.stream_ctx_.result_queue, f ≠ []) →
    (∀ f ∈ enqueued events, f ≠ []) →
    ∃ forwarded : List Bytes,
      (events.foldl relay_step s).sent = s.sent ++ forwarded.map (fun f => f ++ str "\n") ∧
      forwarded ++ (events.foldl relay_step s).stream_ctx_.result_queue =
        s.stream_ctx_.result_queue ++ enqueued events := by
  induction events with
  | nil => intro s _ _ _; exact ⟨[], by simp, by simp [enqueued]⟩
  | cons e rest ih =>
    intro s hfd hq hne
    cases e with
    | enqueue f =>
      have hf : f ≠ [] := hne f (by simp [enqueued])
      obtain ⟨fw, hsent, hqueue⟩ := ih (relay_step s (.enqueue f)) hfd
        (by
          intro g hg
          simp only [relay_step, push_result, List.mem_append, List.mem_singleton] at hg
          rcases hg with hg | hg
          · exact hq g hg
          · rw [hg]; exact hf)
        (fun g hg => hne g (by simp [enqueued, hg]))
      refine ⟨fw, hsent, ?_⟩
      rw [List.foldl_cons, hqueue]
      simp [relay_step, push_result, enqueued]
    | iterate =>
      cases hqs : s.stream_ctx_.result_queue with
      | nil =>
        have hstep : relay_step s .iterate = s := duplex_forward_result_nil s hqs
        obtain ⟨fw, hsent, hqueue⟩ := ih s hfd hq (fun g hg => hne g (by simpa [enqueued] using hg))
        refine ⟨fw, ?_, ?_⟩
        · rw [List.foldl_cons, hstep]; exact hsent
        · rw [List.foldl_cons, hstep, hqueue, hqs]; simp [enqueued]
      | cons r tl =>
        have hr : r ≠ [] := hq r (by rw [hqs]; exact List.mem_cons_self r tl)
        have hstep : relay_step s .iterate =
            { s with stream_ctx_ := { s.stream_ctx_ with result_queue := tl }
                     sent := s.sent ++ [r ++ str "\n"] } :=
          duplex_forward_result_cons s r tl hqs hr hfd
        obtain ⟨fw, hsent, hqueue⟩ := ih (relay_step s .iterate) (by rw [hstep]; exact hfd)
          (by
            intro g hg
            rw [hstep] at hg
            exact hq g (by rw [hqs]; exact List.mem_cons_of_mem r hg))
          (fun g hg => hne g (by simpa [enqueued] using hg))
        refine ⟨r :: fw, ?_, ?_⟩
        · rw [List.foldl_cons, hsent, hstep]; simp
        · rw [List.foldl_cons, List.cons_append, hqueue, hstep]; simp [enqueued]

theorem duplex_forward_result_front (s : MCPSession) (hfd : 0 ≤ s.client_fd_) :
    (forward_result s).stream_ctx_.result_queue = s.stream_ctx_.result_queue.tail ∧
    ((forward_result s).sent = s.sent ∨
      ∃ front, s.stream_ctx_.result_queue.head? = some front ∧
        (forward_result s).sent = s.sent ++ [front ++ str "\n"]) := by
  cases hqs : s.stream_ctx_.result_queue with
  | nil => rw [duplex_forward_result_nil s hqs, hqs]; exact ⟨rfl, Or.inl rfl⟩
  | cons r tl =>
    by_cases hr : r = []
    · have : forward_result s =
          { s with stream_ctx_ := { s.stream_ctx_ with result_queue := tl } } := by
        unfold forward_result
        rw [hqs, hr]
        rfl
      rw [this]
      exact ⟨rfl, Or.inl rfl⟩
    · rw [duplex_forward_result_cons s r tl hqs hr hfd]
      exact ⟨rfl, Or.inr ⟨r, rfl, rfl⟩⟩

end Stream

/-- C13: in both variants, for every interleaving of pushes of non-empty fragments and
main-loop iterations on a session that starts with an empty queue, the fragments written to
the client are, in order, a prefix of the fragments pushed (what is not yet written is
exactly what is still queued); one iteration removes the front entry of the queue, if
there is one, and writes at most that one fragment. -/
theorem relay_fifo (events : List RelayEvent) (b : Batch.MCPSession) (d : Stream.MCPSession)
    (hne : ∀ f ∈ enqueued events, f ≠ [])
    (hb : 0 ≤ b.client_fd_) (hd : 0 ≤ d.client_fd_)
    (hbq : b.stream_ctx_.result_queue = []) (hdq : d.stream_ctx_.result_queue = []) :
    (∃ forwarded : List Bytes,
      (events.foldl Batch.relay_step b).sent =
        b.sent ++ forwarded.map (fun f => f ++ str "\n") ∧
      forwarded ++ (events.foldl Batch.relay_step b).stream_ctx_.result_queue =
        enqueued events ∧
      forwarded <+: enqueued events) ∧
    (∃ forwarded : List Bytes,
      (events.foldl Stream.relay_step d).sent =
        d.sent ++ forwarded.map (fun f => f ++ str "\n") ∧
      forwarded ++ (events.foldl Stream.relay_step d).stream_ctx_.result_queue =
        enqueued events ∧
      forwarded <+: enqueued events) ∧
    (∀ s : Batch.MCPSession, 0 ≤ s.client_fd_ →
      (Batch.forward_result s).stream_ctx_.result_queue = s.stream_ctx_.result_queue.tail ∧
      ((Batch.forward_result s).sent = s.sent ∨
        ∃ front, s.stream_ctx_.result_queue.head? = some front ∧
          (Batch.forward_result s).sent = s.sent ++ [front ++ str "\n"])) ∧
    (∀ s : Stream.MCPSession, 0 ≤ s.client_fd_ →
      (Stream.forward_result s).stream_ctx_.result_queue = s.stream_ctx_.result_queue.tail ∧
      ((Stream.forward_result s).sent = s.sent ∨
        ∃ front, s.stream_ctx_.result_queue.head? = some front ∧
          (Stream.forward_result s).sent = s.sent ++ [front ++ str "\n"])) := by
  refine ⟨?_, ?_, fun s hs => Batch.forward_result_front s hs,
    fun s hs => Stream.duplex_forward_result_front s hs⟩
  · obtain ⟨fw, hsent, hqueue⟩ := Batch.relay_run events b hb (by rw [hbq]; simp) hne
    rw [hbq, List.nil_append] at hqueue
    exact ⟨fw, hsent, hqueue, ⟨_, hqueue⟩⟩
  · obtain ⟨fw, hsent, hqueue⟩ := Stream.duplex_relay_run events d hd (by rw [hdq]; simp) hne
    rw [hdq, List.nil_append] at hqueue
    exact ⟨fw, hsent, hqueue, ⟨_, hqueue⟩⟩

theorem relay_fifo_witness :
    (∃ forwarded : List Bytes,
      (relay_example.foldl Batch.relay_step (Batch.MCPSession.new 3)).sent =
        (Batch.MCPSession.new 3).sent ++ forwarded.map (fun f => f ++ str "\n") ∧
      forwarded ++
        (relay_example.foldl Batch.relay_step (Batch.MCPSession.new 3)).stream_ctx_.result_queue =
        enqueued relay_example ∧
      forwarded <+: enqueued relay_example) ∧
    (∃ forwarded : List Bytes,
      (relay_example.foldl Stream.relay_step (Stream.MCPSession.new 4)).sent =
        (Stream.MCPSession.new 4).sent ++ forwarded.map (fun f => f ++ str "\n") ∧
      forwarded ++
        (relay_example.foldl Stream.relay_step
          (Stream.MCPSession.new 4)).stream_ctx_.result_queue =
        enqueued relay_example ∧
      forwarded <+: enqueued relay_example) :=
  have h := relay_fifo relay_example (Batch.MCPSession.new 3) (Stream.MCPSession.new 4)
    (by decide) (by decide) (by decide) rfl rfl
  ⟨h.1, h.2.1⟩

namespace Batch

/-! ## End-to-end scenario -/

/-- C14 (counterexample): a new session that receives three times the frame
`{"method":"stream_audio","data":"<48 bytes>"}` and then a finalize frame acknowledges 83,
166 and 249 bytes, not 48, 96 and 144: `handle_session` hands the whole 83-byte frame to
`handle_audio_stream`. -/
theorem e2e_acks_count_whole_frames :
    (receive_frames (accepted 3 [false])
      [stream_audio_frame_with data48, stream_audio_frame_with data48,
       stream_audio_frame_with data48, finalize_frame]).sess.sent =
      [initialized_frame ++ str "\n",
       str "\x7b\"type\":\"audio_received\",\"bytes\":83\x7d\n",
       str "\x7b\"type\":\"audio_received\",\"bytes\":166\x7d\n",
       str "\x7b\"type\":\"audio_received\",\"bytes\":249\x7d\n"] ∧
    (receive_frames (accepted 3 [false])
      [stream_audio_frame_with data48, stream_audio_frame_with data48,
       stream_audio_frame_with data48, finalize_frame]).sess.sent ≠
      [initialized_frame ++ str "\n",
       str "\x7b\"type\":\"audio_received\",\"bytes\":48\x7d\n",
       str "\x7b\"type\":\"audio_received\",\"bytes\":96\x7d\n",
       str "\x7b\"type\":\"audio_received\",\"bytes\":144\x7d\n"] := by
  decide

end Batch

namespace Batch

theorem handle_audio_stream_fits (s : MCPSession) (data : Bytes) (hfd : 0 ≤ s.client_fd_)
    (hne : data ≠ [])
    (hfit : s.accumulated_audio_.length + data.length ≤ MAX_AUDIO_SIZE) :
    handle_audio_stream s data =
      { s with accumulated_audio_ := s.accumulated_audio_ ++ data
               sent := s.sent ++
                 [audio_received_frame (s.accumulated_audio_.length + data.length) ++
                   str "\n"] } := by
  unfold handle_audio_stream
  have h0 : ¬ data.length = 0 := fun h => hne (List.length_eq_zero.mp h)
  rw [if_neg h0, if_neg (by omega)]
  simp only [List.length_append]
  exact send_response_open _ _ hfd

theorem stream_audio_frame_with_length (data : Bytes) :
    (stream_audio_frame_with data).length = data.length + 35 := by
  have h1 : (str "\x7b\"method\":\"stream_audio\",\"data\":\"").length = 33 := by decide
  have h2 : (str "\"\x7d").length = 2 := by decide
  unfold stream_audio_frame_with
  rw [List.length_append, List.length_append, h1, h2]
  omega

theorem stream_audio_frame_with_found (data : Bytes) :
    (find (stream_audio_frame_with data) (str "\"method\":\"stream_audio\"") 0).isSome
      = true := by
  have hp : str "\"method\":\"stream_audio\"" =
      [34, 109, 101, 116, 104, 111, 100, 34, 58, 34, 115, 116, 114, 101, 97, 109, 95, 97, 117,
        100, 105, 111, 34] := by decide
  have hh : str "\x7b\"method\":\"stream_audio\",\"data\":\"" =
      [123, 34, 109, 101, 116, 104, 111, 100, 34, 58, 34, 115, 116, 114, 101, 97, 109, 95, 97,
        117, 100, 105, 111, 34, 44, 34, 100, 97, 116, 97, 34, 58, 34] := by decide
  unfold stream_audio_frame_with
  rw [hp, hh]
  simp [find, findAt, List.isPrefixOf]

theorem handle_frame_stream_audio (s : MCPSession) (pool : List Bool) (data : Bytes)
    (hnot : find (stream_audio_frame_with data) (str "\"method\":\"transcribe\"") 0 = none) :
    handle_frame s pool (stream_audio_frame_with data) =
      .returned (handle_audio_stream s (stream_audio_frame_with data)) pool := by
  unfold handle_frame
  simp only [hnot, Option.isSome_none, stream_audio_frame_with_found, if_true]
  rfl

theorem handle_frame_finalize (s : MCPSession) (pool : List Bool) :
    handle_frame s pool finalize_frame = handle_finalize_transcription s pool := by
  unfold handle_frame
  have h1 : (find finalize_frame (str "\"method\":\"transcribe\"") 0).isSome = false := by
    decide
  have h2 : (find finalize_frame (str "\"method\":\"stream_audio\"") 0).isSome = false := by
    decide
  have h3 : (find finalize_frame (str "\"method\":\"finalize_transcription\"") 0).isSome
      = true := by decide
  simp only [h1, h2, h3, if_true]
  rfl

theorem start_transcription_sent (s : MCPSession) (pool : List Bool) (audio_copy : Bytes)
    (marker : Bool) :
    (start_transcription s pool audio_copy marker).sess.sent = s.sent := by
  by_cases hany : pool.any (fun in_use => !in_use) = true
  · obtain ⟨i, pool1, _, _, _, h⟩ := start_transcription_free s pool audio_copy marker hany
    rw [h]; rfl
  · rw [start_transcription_busy s pool audio_copy marker (by simpa using hany)]; rfl

end Batch

namespace Batch

theorem receive_stream_audio (sys : Sys) (data : Bytes) (hp : sys.pending = none)
    (hfd : 0 ≤ sys.sess.client_fd_)
    (hnot : find (stream_audio_frame_with data) (str "\"method\":\"transcribe\"") 0 = none)
    (hfit : sys.sess.accumulated_audio_.length + (data.length + 35) ≤ MAX_AUDIO_SIZE) :
    receive_frames sys [stream_audio_frame_with data] =
      { sys with
        sess := { sys.sess with
          accumulated_audio_ := sys.sess.accumulated_audio_ ++ stream_audio_frame_with data
          sent := sys.sess.sent ++
            [audio_received_frame (sys.sess.accumulated_audio_.length + (data.length + 35)) ++
              str "\n"] } } := by
  have hne : stream_audio_frame_with data ≠ [] := by
    intro h
    have := stream_audio_frame_with_length data
    rw [h] at this
    simp at this
  unfold receive_frames
  rw [List.foldl_cons, List.foldl_nil, hp]
  simp only [Option.isSome_none, Bool.false_eq_true, if_false]
  rw [handle_frame_stream_audio _ _ _ hnot,
    handle_audio_stream_fits _ _ hfd hne (by rw [stream_audio_frame_with_length]; exact hfit),
    stream_audio_frame_with_length]
  simp only [Sys.after]

theorem receive_frames_append (sys : Sys) (xs ys : List Bytes) :
    receive_frames sys (xs ++ ys) = receive_frames (receive_frames sys xs) ys := by
  unfold receive_frames
  rw [List.foldl_append]

theorem receive_finalize (sys : Sys) (hp : sys.pending = none)
    (hne : sys.sess.accumulated_audio_ ≠ [])
    (hcap : sys.sess.accumulated_audio_.length ≤ MAX_AUDIO_SIZE) :
    (receive_frames sys [finalize_frame]).sess.sent = sys.sess.sent ∧
    (receive_frames sys [finalize_frame]).sess.accumulated_audio_ = [] := by
  unfold receive_frames
  rw [List.foldl_cons, List.foldl_nil, hp]
  simp only [Option.isSome_none, Bool.false_eq_true, if_false]
  rw [after_sess, handle_frame_finalize]
  have hdef : handle_finalize_transcription sys.sess sys.pool =
      start_transcription { sys.sess with accumulated_audio_ := [] } sys.pool
        sys.sess.accumulated_audio_ true := by
    unfold handle_finalize_transcription
    rw [if_neg (by simpa using hne), if_neg (by omega)]
  rw [hdef, start_transcription_sent, start_transcription_audio]
  exact ⟨rfl, rfl⟩

/-- C14 (amended): when a new session receives three times a frame
`{"method":"stream_audio","data":"<48 bytes>"}` (one that does not also hold
`"method":"transcribe"`, which `handle_session` tests first) and then a finalize frame, the
three acknowledgements report 83, 166 and 249 bytes, in that order: the buffer accumulates
the three whole 83-byte frames; the accumulation buffer is empty after the finalize. -/
theorem e2e_acks_and_finalize (fd : Int) (pool : List Bool) (data : Bytes)
    (hfd : 0 ≤ fd) (hlen : data.length = 48)
    (hnot : find (stream_audio_frame_with data) (str "\"method\":\"transcribe\"") 0 = none) :
    (receive_frames (accepted fd pool)
      [stream_audio_frame_with data, stream_audio_frame_with data,
       stream_audio_frame_with data]).sess.accumulated_audio_ =
      stream_audio_frame_with data ++ stream_audio_frame_with data ++
        stream_audio_frame_with data ∧
    (receive_frames (accepted fd pool)
      [stream_audio_frame_with data, stream_audio_frame_with data,
       stream_audio_frame_with data, finalize_frame]).sess.sent =
      [initialized_frame ++ str "\n",
       audio_received_frame 83 ++ str "\n",
       audio_received_frame 166 ++ str "\n",
       audio_received_frame 249 ++ str "\n"] ∧
    (receive_frames (accepted fd pool)
      [stream_audio_frame_with data, stream_audio_frame_with data,
       stream_audio_frame_with data, finalize_frame]).sess.accumulated_audio_ = [] := by
  have hflen := stream_audio_frame_with_length data
  rw [hlen] at hflen
  have h0 : (accepted fd pool).sess =
      { MCPSession.new fd with sent := [initialized_frame ++ str "\n"] } := by
    unfold accepted
    exact send_response_open _ _ hfd
  have hsplit3 : [stream_audio_frame_with data, stream_audio_frame_with data,
      stream_audio_frame_with data] =
      [stream_audio_frame_with data] ++ [stream_audio_frame_with data] ++
        [stream_audio_frame_with data] := rfl
  have hsplit4 : [stream_audio_frame_with data, stream_audio_frame_with data,
      stream_audio_frame_with data, finalize_frame] =
      [stream_audio_frame_with data, stream_audio_frame_with data,
        stream_audio_frame_with data] ++ [finalize_frame] := rfl
  have h1 := receive_stream_audio (accepted fd pool) data rfl (by rw [h0]; exact hfd) hnot
    (by rw [h0, hlen]; simp [MCPSession.new, MAX_AUDIO_SIZE])
  rw [h0] at h1
  simp only [MCPSession.new, List.length_nil, List.nil_append, hlen, Nat.zero_add,
    List.singleton_append] at h1
  have h2 := receive_stream_audio (receive_frames (accepted fd pool)
    [stream_audio_frame_with data]) data (by rw [h1]; rfl) (by rw [h1]; exact hfd) hnot
    (by rw [h1, hlen]; simp [hflen, MAX_AUDIO_SIZE])
  rw [h1] at h2
  simp only [hflen, hlen, List.cons_append, List.nil_append] at h2
  have h3 := receive_stream_audio (receive_frames (receive_frames (accepted fd pool)
    [stream_audio_frame_with data]) [stream_audio_frame_with data]) data
    (by rw [h1, h2]; rfl) (by rw [h1, h2]; exact hfd) hnot
    (by rw [h1, h2, hlen]; simp [hflen, MAX_AUDIO_SIZE])
  rw [h1, h2] at h3
  simp only [hflen, hlen, List.length_append, List.cons_append, List.nil_append] at h3
  obtain ⟨sys3, hthree, hp3, haudio3, hsent3⟩ : ∃ sys3 : Sys,
      receive_frames (accepted fd pool)
        [stream_audio_frame_with data, stream_audio_frame_with data,
          stream_audio_frame_with data] = sys3 ∧
      sys3.pending = none ∧
      sys3.sess.accumulated_audio_ =
        stream_audio_frame_with data ++ stream_audio_frame_with data ++
          stream_audio_frame_with data ∧
      sys3.sess.sent =
        [initialized_frame ++ str "\n", audio_received_frame 83 ++ str "\n",
          audio_received_frame 166 ++ str "\n", audio_received_frame 249 ++ str "\n"] := by
    refine ⟨?w, ?g1, ?g2, ?g3, ?g4⟩
    case g1 =>
      rw [hsplit3, receive_frames_append, receive_frames_append, h1, h2]
      exact h3
    case g2 => rfl
    case g3 => rfl
    case g4 => rfl
  have hfin := receive_finalize sys3 hp3
    (by
      rw [haudio3]
      intro h
      have := congrArg List.length h
      simp [hflen] at this)
    (by rw [haudio3]; simp [hflen, MAX_AUDIO_SIZE])
  refine ⟨?_, ?_, ?_⟩
  · rw [hthree, haudio3]
  · rw [hsplit4, receive_frames_append, hthree, hfin.1, hsent3]
  · rw [hsplit4, receive_frames_append, hthree, hfin.2]

end Batch

namespace Batch

theorem e2e_acks_and_finalize_witness :
    (receive_frames (accepted 3 [false])
      [stream_audio_frame_with data48, stream_audio_frame_with data48,
       stream_audio_frame_with data48]).sess.accumulated_audio_ =
      stream_audio_frame_with data48 ++ stream_audio_frame_with data48 ++
        stream_audio_frame_with data48 ∧
    (receive_frames (accepted 3 [false])
      [stream_audio_frame_with data48, stream_audio_frame_with data48,
       stream_audio_frame_with data48, finalize_frame]).sess.sent =
      [initialized_frame ++ str "\n",
       audio_received_frame 83 ++ str "\n",
       audio_received_frame 166 ++ str "\n",
       audio_received_frame 249 ++ str "\n"] ∧
    (receive_frames (accepted 3 [false])
      [stream_audio_frame_with data48, stream_audio_frame_with data48,
       stream_audio_frame_with data48, finalize_frame]).sess.accumulated_audio_ = [] :=
  e2e_acks_and_finalize 3 [false] data48 (by decide) (by decide) (by decide)

end Batch

namespace Stream

/-! ## Base64 decoding -/

set_option maxRecDepth 100000 in
theorem b64char_spec : ∀ i, i < 64 →
    b64char i ≠ EQUALS ∧ find BASE64_CHARS [b64char i] 0 = some i := by
  decide

theorem findAt_single (c : Nat) (s : Bytes) : ∀ i, (findAt [c] s i).isSome = true ↔ c ∈ s := by
  induction s with
  | nil => intro i; simp [findAt, List.isPrefixOf]
  | cons d s ih =>
    intro i
    unfold findAt
    by_cases h : c = d
    · simp [List.isPrefixOf, h]
    · have h2 : (c == d) = false := by simpa using h
      simp [List.isPrefixOf, h2, ih (i + 1), h]

theorem find_single (c : Nat) (s : Bytes) : (find s [c] 0).isSome = true ↔ c ∈ s := by
  unfold find
  simp only [Nat.zero_le, if_true, List.drop_zero]
  exact findAt_single c s 0

theorem loop_equals (norm : Int → Int) (rest : Bytes) (val valb : Int) (decoded : Bytes) :
    base64_decode_loop norm (EQUALS :: rest) val valb decoded = decoded := by
  rw [base64_decode_loop, if_pos rfl]

theorem loop_skip (norm : Int → Int) (c : Nat) (rest : Bytes) (val valb : Int) (decoded : Bytes)
    (hc : c ≠ EQUALS) (hf : find BASE64_CHARS [c] 0 = none) :
    base64_decode_loop norm (c :: rest) val valb decoded =
      base64_decode_loop norm rest val valb decoded := by
  rw [base64_decode_loop, if_neg hc, hf]

theorem loop_digit (norm : Int → Int) (c pos : Nat) (rest : Bytes) (val valb : Int)
    (decoded : Bytes) (hc : c ≠ EQUALS) (hf : find BASE64_CHARS [c] 0 = some pos) :
    base64_decode_loop norm (c :: rest) val valb decoded =
      if valb + 6 ≥ 0 then
        base64_decode_loop norm rest (norm (norm (val * 64) + (pos : Int))) (valb + 6 - 8)
          (decoded ++ [((norm (norm (val * 64) + (pos : Int)) >>> (valb + 6).toNat) % 256).toNat])
      else base64_decode_loop norm rest (norm (norm (val * 64) + (pos : Int))) (valb + 6)
        decoded := by
  rw [base64_decode_loop, if_neg hc, hf]

theorem shift_byte_congr (x y : Int) (n : Nat) (hn : n ≤ 5)
    (h : x % 4294967296 = y % 4294967296) : (x >>> n) % 256 = (y >>> n) % 256 := by
  rw [Int.shiftRight_eq_div_pow, Int.shiftRight_eq_div_pow]
  interval_cases n <;> simp <;> omega

theorem loop_wrap_eq (encoded : Bytes) : ∀ (vw vu valb : Int) (decoded : Bytes),
    vw % 4294967296 = vu % 4294967296 → -8 ≤ valb → valb ≤ -1 →
    base64_decode_loop wrap_int32 encoded vw valb decoded =
      base64_decode_loop id encoded vu valb decoded := by
  induction encoded with
  | nil => intro vw vu valb decoded _ _ _; simp [base64_decode_loop]
  | cons c rest ih =>
    intro vw vu valb decoded hv hlo hhi
    by_cases hc : c = EQUALS
    · rw [hc, loop_equals, loop_equals]
    · cases hf : find BASE64_CHARS [c] 0 with
      | none => rw [loop_skip _ _ _ _ _ _ hc hf, loop_skip _ _ _ _ _ _ hc hf]; exact ih _ _ _ _ hv hlo hhi
      | some pos =>
        rw [loop_digit _ _ _ _ _ _ _ hc hf, loop_digit _ _ _ _ _ _ _ hc hf]
        have hv1 : wrap_int32 (wrap_int32 (vw * 64) + (pos : Int)) % 4294967296 =
            id (id (vu * 64) + (pos : Int)) % 4294967296 := by
          unfold wrap_int32
          simp only [id]
          omega
        by_cases hb : valb + 6 ≥ 0
        · rw [if_pos hb, if_pos hb]
          have hbyte := shift_byte_congr _ _ (valb + 6).toNat (by omega) hv1
          rw [hbyte]
          exact ih _ _ _ _ hv1 (by omega) (by omega)
        · rw [if_neg hb, if_neg hb]
          exact ih _ _ _ _ hv1 (by omega) (by omega)

theorem alphabet_count_nil : alphabet_count [] = 0 := rfl

theorem alphabet_count_equals (rest : Bytes) : alphabet_count (EQUALS :: rest) = 0 := by
  simp [alphabet_count]

theorem alphabet_count_skip (c : Nat) (rest : Bytes) (hc : c ≠ EQUALS)
    (hf : find BASE64_CHARS [c] 0 = none) :
    alphabet_count (c :: rest) = alphabet_count rest := by
  have hmem : c ∉ BASE64_CHARS := by
    intro h
    have := (find_single c BASE64_CHARS).mpr h
    rw [hf] at this
    simp at this
  simp [alphabet_count, List.takeWhile_cons, hc, hmem]

theorem alphabet_count_digit (c pos : Nat) (rest : Bytes) (hc : c ≠ EQUALS)
    (hf : find BASE64_CHARS [c] 0 = some pos) :
    alphabet_count (c :: rest) = alphabet_count rest + 1 := by
  have hmem : c ∈ BASE64_CHARS := (find_single c BASE64_CHARS).mp (by rw [hf]; rfl)
  simp [alphabet_count, List.takeWhile_cons, hc, hmem]

theorem loop_length (norm : Int → Int) (encoded : Bytes) : ∀ (val valb : Int) (decoded : Bytes),
    -8 ≤ valb → valb ≤ -1 →
    (base64_decode_loop norm encoded val valb decoded).length =
      decoded.length + (6 * alphabet_count encoded + (valb + 8).toNat) / 8 := by
  induction encoded with
  | nil =>
    intro val valb decoded hlo hhi
    simp only [base64_decode_loop, alphabet_count_nil]
    omega
  | cons c rest ih =>
    intro val valb decoded hlo hhi
    by_cases hc : c = EQUALS
    · rw [hc, loop_equals, alphabet_count_equals]; omega
    · cases hf : find BASE64_CHARS [c] 0 with
      | none =>
        rw [loop_skip _ _ _ _ _ _ hc hf, alphabet_count_skip _ _ hc hf]
        exact ih _ _ _ hlo hhi
      | some pos =>
        rw [loop_digit _ _ _ _ _ _ _ hc hf, alphabet_count_digit _ _ _ hc hf]
        by_cases hb : valb + 6 ≥ 0
        · rw [if_pos hb, ih _ _ _ (by omega) (by omega)]
          simp only [List.length_append, List.length_singleton]
          omega
        · rw [if_neg hb, ih _ _ _ (by omega) (by omega)]
          omega

theorem loop_b64char (norm : Int → Int) (i : Nat) (hi : i < 64) (rest : Bytes) (val valb : Int)
    (decoded : Bytes) :
    base64_decode_loop norm (b64char i :: rest) val valb decoded =
      if valb + 6 ≥ 0 then
        base64_decode_loop norm rest (norm (norm (val * 64) + (i : Int))) (valb + 6 - 8)
          (decoded ++ [((norm (norm (val * 64) + (i : Int)) >>> (valb + 6).toNat) % 256).toNat])
      else base64_decode_loop norm rest (norm (norm (val * 64) + (i : Int))) (valb + 6)
        decoded :=
  loop_digit norm (b64char i) i rest val valb decoded (b64char_spec i hi).1 (b64char_spec i hi).2

theorem loop_first (i : Nat) (hi : i < 64) (rest : Bytes) (val : Int) (decoded : Bytes) :
    base64_decode_loop wrap_int32 (b64char i :: rest) val (-8) decoded =
      base64_decode_loop wrap_int32 rest (wrap_int32 (wrap_int32 (val * 64) + (i : Int))) (-2)
        decoded := by
  rw [loop_b64char _ i hi, if_neg (by decide)]
  rfl

theorem loop_second (i : Nat) (hi : i < 64) (rest : Bytes) (val : Int) (decoded : Bytes) :
    base64_decode_loop wrap_int32 (b64char i :: rest) val (-2) decoded =
      base64_decode_loop wrap_int32 rest (wrap_int32 (wrap_int32 (val * 64) + (i : Int))) (-4)
        (decoded ++ [((wrap_int32 (wrap_int32 (val * 64) + (i : Int)) / 16) % 256).toNat]) := by
  rw [loop_b64char _ i hi, if_pos (by decide), Int.shiftRight_eq_div_pow]
  rfl

theorem loop_third (i : Nat) (hi : i < 64) (rest : Bytes) (val : Int) (decoded : Bytes) :
    base64_decode_loop wrap_int32 (b64char i :: rest) val (-4) decoded =
      base64_decode_loop wrap_int32 rest (wrap_int32 (wrap_int32 (val * 64) + (i : Int))) (-6)
        (decoded ++ [((wrap_int32 (wrap_int32 (val * 64) + (i : Int)) / 4) % 256).toNat]) := by
  rw [loop_b64char _ i hi, if_pos (by decide), Int.shiftRight_eq_div_pow]
  rfl

theorem loop_fourth (i : Nat) (hi : i < 64) (rest : Bytes) (val : Int) (decoded : Bytes) :
    base64_decode_loop wrap_int32 (b64char i :: rest) val (-6) decoded =
      base64_decode_loop wrap_int32 rest (wrap_int32 (wrap_int32 (val * 64) + (i : Int))) (-8)
        (decoded ++ [((wrap_int32 (wrap_int32 (val * 64) + (i : Int)) / 1) % 256).toNat]) := by
  rw [loop_b64char _ i hi, if_pos (by decide), Int.shiftRight_eq_div_pow]
  rfl

theorem decode_encode_loop (b : Bytes) : (∀ x ∈ b, x < 256) → ∀ (val : Int) (decoded : Bytes),
    base64_decode_loop wrap_int32 (base64_encode b) val (-8) decoded = decoded ++ b := by
  induction b using base64_encode.induct with
  | case1 => intro _ val decoded; simp [base64_encode, base64_decode_loop]
  | case2 x =>
    intro h val decoded
    have hx : x < 256 := h x (by simp)
    rw [base64_encode, loop_first _ (by omega), loop_second _ (by omega), loop_equals]
    congr 1
    simp only [List.cons.injEq, and_true]
    unfold wrap_int32
    omega
  | case3 x y =>
    intro h val decoded
    have hx : x < 256 := h x (by simp)
    have hy : y < 256 := h y (by simp)
    rw [base64_encode, loop_first _ (by omega), loop_second _ (by omega),
      loop_third _ (by omega), loop_equals, List.append_assoc]
    congr 1
    simp only [List.singleton_append, List.cons.injEq, and_true]
    constructor <;> (unfold wrap_int32; omega)
  | case4 x y z rest ih =>
    intro h val decoded
    have hx : x < 256 := h x (by simp)
    have hy : y < 256 := h y (by simp)
    have hz : z < 256 := h z (by simp)
    rw [base64_encode, loop_first _ (by omega), loop_second _ (by omega),
      loop_third _ (by omega), loop_fourth _ (by omega),
      ih (fun w hw => h w (by simp [hw]))]
    simp only [List.append_assoc]
    congr 1
    simp only [List.singleton_append, List.cons_append, List.nil_append, List.cons.injEq,
      and_true]
    refine ⟨?_, ?_, ?_⟩ <;> (unfold wrap_int32; omega)


/-- C15: `base64_decode` applied to the standard base64 encoding of a byte sequence returns
that byte sequence. -/
theorem base64_roundtrip (b : Bytes) (h : ∀ x ∈ b, x < 256) :
    base64_decode (base64_encode b) = b := by
  unfold base64_decode
  rw [decode_encode_loop b h, List.nil_append]

theorem base64_roundtrip_witness :
    base64_encode (str "hello") = str "aGVsbG8=" ∧
    base64_decode (base64_encode (str "hello")) = str "hello" :=
  ⟨by decide, base64_roundtrip (str "hello") (by decide)⟩

/-- C20: for every input, `base64_decode` with `val` a 32-bit `int` that wraps on every
shift and addition produces the bytes of the decoder with an unbounded `val`, and the
output has `6 * k / 8` (rounded down) bytes, `k` being the number of alphabet characters
before the first `=`. -/
theorem base64_wrap_harmless (encoded : Bytes) :
    base64_decode encoded = base64_decode_unbounded encoded ∧
    (base64_decode encoded).length = 6 * alphabet_count encoded / 8 := by
  constructor
  · exact loop_wrap_eq encoded 0 0 (-8) [] rfl (by decide) (by decide)
  · unfold base64_decode
    rw [loop_length _ _ _ _ _ (by decide) (by decide)]
    simp

end Stream

namespace Batch

/-! ## Session lifetime -/

theorem send_response_finished (s : MCPSession) (r : Bytes) :
    (send_response s r).finished_ = s.finished_ := by
  unfold send_response; split <;> rfl

theorem send_error_finished (s : MCPSession) (e : Bytes) :
    (send_error s e).finished_ = s.finished_ := by
  unfold send_error; exact send_response_finished s _

theorem start_transcription_finished (s : MCPSession) (pool : List Bool) (audio_copy : Bytes)
    (marker : Bool) :
    (start_transcription s pool audio_copy marker).sess.finished_ = s.finished_ := by
  unfold start_transcription
  cases acquire pool <;> simp [Handled.sess, send_error_finished]

theorem handle_frame_finished (s : MCPSession) (pool : List Bool) (buffer : Bytes) :
    (handle_frame s pool buffer).sess.finished_ = s.finished_ := by
  unfold handle_frame handle_transcribe_request handle_finalize_transcription
    handle_audio_stream
  simp only
  repeat' split
  all_goals
    first
      | rfl
      | exact send_error_finished _ _
      | exact send_response_finished _ _
      | exact start_transcription_finished _ _ _ _

theorem forward_result_finished (s : MCPSession) :
    (forward_result s).finished_ = s.finished_ := by
  unfold forward_result
  split
  · rfl
  · simp only
    split
    · rw [send_response_finished]
    · rfl

theorem thread_epilogue_finished (s : MCPSession) (t : TranscribeThread) (success : Bool) :
    (thread_epilogue s t success).finished_ = s.finished_ := by
  unfold thread_epilogue
  simp only
  split <;> split <;>
    simp only [send_response_finished, send_error_finished]

/-- No step of a batch session sets `finished_`: it is false in every reachable state. -/
theorem reachable_not_finished (sys : Sys) (h : Reachable sys) : sys.sess.finished_ = false := by
  induction h with
  | init fd pool _ => rw [send_response_finished]; rfl
  | step sys sys1 _ hstep ih =>
    cases hstep with
    | recv buffer _ _ _ => rw [after_sess, handle_frame_finished]; exact ih
    | wake audio_copy marker _ _ => rw [after_sess, start_transcription_finished]; exact ih
    | forward _ => simp only [forward_result_finished]; exact ih
    | request k t _ _ => exact ih
    | chunk k t data _ _ => exact ih
    | finish k t success _ _ => simp only [thread_epilogue_finished]; exact ih
    | others pool1 _ _ => exact ih

end Batch

/-- C18 (defect of the batch code): a batch session whose main loop has exited (here right
after the handshake, the client having closed the connection) still reports
`is_finished() = false`, so the cleanup sweep keeps it; the duplex session, whose
`handle_session` ends with `finished_ = true`, is removed by the sweep while an unfinished
session is kept. -/
theorem batch_exit_leaves_unfinished :
    Batch.is_finished (Batch.handle_session_exit (Batch.accepted 3 [false]).sess) = false ∧
    Batch.cleanup_finished_sessions
        [Batch.handle_session_exit (Batch.accepted 3 [false]).sess] =
      [Batch.handle_session_exit (Batch.accepted 3 [false]).sess] ∧
    Stream.is_finished (Stream.handle_session_exit (Stream.MCPSession.new 3)) = true ∧
    Stream.cleanup_finished_sessions
        [Stream.MCPSession.new 4, Stream.handle_session_exit (Stream.MCPSession.new 3)] =
      [Stream.MCPSession.new 4] := by
  decide

namespace Batch

/-! ## Submissions in flight -/

theorem reachable_receive_frames (frames : List Bytes) : ∀ sys : Sys, Reachable sys →
    (∀ f ∈ frames, 0 < f.length ∧ f.length ≤ BUFFER_SIZE) →
    Reachable (receive_frames sys frames) := by
  induction frames with
  | nil => intro sys h _; exact h
  | cons f rest ih =>
    intro sys h hf
    have hrest : ∀ g ∈ rest, 0 < g.length ∧ g.length ≤ BUFFER_SIZE :=
      fun g hg => hf g (List.mem_cons_of_mem f hg)
    unfold receive_frames
    rw [List.foldl_cons]
    cases hp : sys.pending with
    | some p =>
      simp only [Option.isSome_some, if_true]
      exact ih sys h hrest
    | none =>
      simp only [Option.isSome_none, Bool.false_eq_true, if_false]
      exact ih _ (Reachable.step _ _ h
        (Step.recv sys f hp (hf f (List.mem_cons_self f rest)).1
          (hf f (List.mem_cons_self f rest)).2)) hrest

/-- C19 (counterexample): after one `stream_audio` frame and two `transcribe` frames on a
pool with two free connections, both background threads are inside `transcribe_audio` at
the same time: two submissions of the session are active. -/
theorem two_submissions_active :
    Reachable two_submissions ∧
    two_submissions.sess.transcription_threads_.map (fun t => (t.asr_conn, t.phase)) =
      [(0, .requesting), (1, .requesting)] ∧
    (active two_submissions.sess.transcription_threads_).length = 2 := by
  refine ⟨?_, by decide, by decide⟩
  have h0 : Reachable two_threads :=
    reachable_receive_frames _ _ (Reachable.init 3 [false, false] (by decide)) (by decide)
  have h1 : Reachable (begin_request two_threads 0 ⟨0, stream_audio_frame, false, .spawned⟩) :=
    Reachable.step _ _ h0 (Step.request two_threads 0 ⟨0, stream_audio_frame, false, .spawned⟩
      (by decide) rfl)
  exact Reachable.step _ _ h1
    (Step.request _ 1 ⟨1, stream_audio_frame, false, .spawned⟩ (by decide) rfl)

end Batch

namespace Batch

theorem send_response_threads (s : MCPSession) (r : Bytes) :
    (send_response s r).transcription_threads_ = s.transcription_threads_ := by
  unfold send_response; split <;> rfl

theorem send_error_threads (s : MCPSession) (e : Bytes) :
    (send_error s e).transcription_threads_ = s.transcription_threads_ := by
  unfold send_error; exact send_response_threads s _

theorem handle_audio_stream_threads (s : MCPSession) (data : Bytes) :
    (handle_audio_stream s data).transcription_threads_ = s.transcription_threads_ := by
  unfold handle_audio_stream
  split
  · exact send_error_threads _ _
  · split
    · exact send_error_threads _ _
    · exact send_response_threads _ _

theorem forward_result_threads (s : MCPSession) :
    (forward_result s).transcription_threads_ = s.transcription_threads_ := by
  unfold forward_result
  split
  · rfl
  · simp only
    split
    · exact send_response_threads _ _
    · rfl

theorem thread_epilogue_threads (s : MCPSession) (t : TranscribeThread) (success : Bool) :
    (thread_epilogue s t success).transcription_threads_ = s.transcription_threads_ := by
  unfold thread_epilogue
  simp only
  split <;> split <;>
    simp only [send_response_threads, send_error_threads]

theorem active_conns_append_spawned (ts : List TranscribeThread) (i : Nat) (c : Bytes)
    (m : Bool) :
    active_conns (ts ++ [⟨i, c, m, .spawned⟩]) = active_conns ts ++ [i] := by
  simp [active_conns, active, List.filter_append, List.filter_cons]

theorem active_conns_requesting (ts : List TranscribeThread) : ∀ (k : Nat)
    (t : TranscribeThread), ts.get? k = some t → t.phase = .spawned →
    active_conns (set_phase ts k .requesting) = active_conns ts := by
  induction ts with
  | nil => intro k t h; simp at h
  | cons a rest ih =>
    intro k t h hphase
    cases k with
    | zero =>
      simp only [List.get?_cons_zero, Option.some.injEq] at h
      subst h
      simp [set_phase, active_conns, active, List.filter_cons, hphase]
    | succ n =>
      simp only [List.get?_cons_succ] at h
      have := ih n t h hphase
      simp only [set_phase, active_conns, active, List.modify_succ_cons,
        List.filter_cons] at this ⊢
      split <;> simp [this]

theorem active_conns_done (ts : List TranscribeThread) : ∀ (k : Nat) (t : TranscribeThread),
    ts.get? k = some t → t.phase = .requesting →
    ∃ l1 l2, active_conns ts = l1 ++ t.asr_conn :: l2 ∧
      active_conns (set_phase ts k .done) = l1 ++ l2 := by
  induction ts with
  | nil => intro k t h; simp at h
  | cons a rest ih =>
    intro k t h hphase
    cases k with
    | zero =>
      simp only [List.get?_cons_zero, Option.some.injEq] at h
      subst h
      refine ⟨[], active_conns rest, ?_, ?_⟩
      · simp [active_conns, active, List.filter_cons, hphase]
      · simp [set_phase, active_conns, active, List.filter_cons]
    | succ n =>
      simp only [List.get?_cons_succ] at h
      obtain ⟨l1, l2, h1, h2⟩ := ih n t h hphase
      simp only [set_phase, active_conns, active] at h1 h2
      by_cases ha : (a.phase != .done) = true
      · refine ⟨a.asr_conn :: l1, l2, ?_, ?_⟩
        · simp [active_conns, active, List.filter_cons, ha, h1]
        · simp [set_phase, active_conns, active, List.modify_succ_cons, List.filter_cons, ha, h2]
      · refine ⟨l1, l2, ?_, ?_⟩
        · simp [active_conns, active, List.filter_cons, ha, h1]
        · simp [set_phase, active_conns, active, List.modify_succ_cons, List.filter_cons, ha, h2]

theorem holds_keep (sys : Sys) (s : MCPSession) (pending : Option (Bytes × Bool))
    (hs : s.transcription_threads_ = sys.sess.transcription_threads_)
    (h : HoldsConnections sys) :
    HoldsConnections { sys with sess := s, pending := pending } := by
  unfold HoldsConnections at h ⊢
  simp only [hs]
  exact h

theorem holds_start (sys : Sys) (s : MCPSession) (audio_copy : Bytes) (marker : Bool)
    (hs : s.transcription_threads_ = sys.sess.transcription_threads_)
    (h : HoldsConnections sys) :
    HoldsConnections (sys.after (start_transcription s sys.pool audio_copy marker)) := by
  by_cases hany : sys.pool.any (fun in_use => !in_use) = true
  · obtain ⟨i, pool1, _, hget, hset, hstart⟩ :=
      start_transcription_free s sys.pool audio_copy marker hany
    rw [hstart]
    obtain ⟨hnd, hheld⟩ := h
    have hlt : i < sys.pool.length := by
      rcases Nat.lt_or_ge i sys.pool.length with hlt | hge
      · exact hlt
      · rw [List.get?_eq_none.mpr hge] at hget
        cases hget
    have hnot : i ∉ active_conns sys.sess.transcription_threads_ := by
      intro hmem
      have := hheld i hmem
      rw [hget] at this
      cases this
    unfold HoldsConnections
    simp only [Sys.after, hs, active_conns_append_spawned]
    refine ⟨?_, ?_⟩
    · rw [List.nodup_append]
      refine ⟨hnd, List.nodup_singleton i, ?_⟩
      intro a ha hb
      rw [List.mem_singleton] at hb
      exact hnot (hb ▸ ha)
    · intro c hc
      rw [hset, List.get?_eq_getElem?]
      by_cases hci : i = c
      · rw [← hci, List.getElem?_set_self hlt]
      · rw [List.getElem?_set_ne hci, ← List.get?_eq_getElem?]
        rcases List.mem_append.mp hc with hc1 | hc1
        · exact hheld c hc1
        · rw [List.mem_singleton] at hc1
          exact absurd hc1.symm hci
  · rw [start_transcription_busy s sys.pool audio_copy marker (by simpa using hany)]
    exact holds_keep sys s _ hs h

theorem holds_handle_frame (sys : Sys) (buffer : Bytes) (h : HoldsConnections sys) :
    HoldsConnections (sys.after (handle_frame sys.sess sys.pool buffer)) := by
  unfold handle_frame handle_transcribe_request handle_finalize_transcription
  simp only
  repeat' split
  all_goals
    first
      | exact holds_start sys _ _ _ rfl h
      | exact holds_keep sys _ none (send_error_threads _ _) h
      | exact holds_keep sys _ none (handle_audio_stream_threads _ _) h
      | exact holds_keep sys _ none rfl h

end Batch

namespace Batch

theorem holds_step (sys sys1 : Sys) (hstep : Step sys sys1) (h : HoldsConnections sys) :
    HoldsConnections sys1 := by
  cases hstep with
  | recv buffer _ _ _ => exact holds_handle_frame sys buffer h
  | wake audio_copy marker _ _ => exact holds_start sys sys.sess audio_copy marker rfl h
  | forward _ =>
    unfold HoldsConnections at h ⊢
    simp only [forward_result_threads]
    exact h
  | request k t hk hphase =>
    unfold HoldsConnections at h ⊢
    simp only [active_conns_requesting _ k t hk hphase]
    exact h
  | chunk k t data _ _ => exact h
  | finish k t success hk hphase =>
    obtain ⟨hnd, hheld⟩ := h
    obtain ⟨l1, l2, hold, hnew⟩ := active_conns_done _ k t hk hphase
    unfold HoldsConnections
    simp only [hnew]
    rw [hold] at hnd hheld
    have hnd2 : (l1 ++ l2).Nodup := by
      have hsub : (l1 ++ l2).Sublist (l1 ++ t.asr_conn :: l2) :=
        List.Sublist.append (List.Sublist.refl l1) (List.sublist_cons_self _ _)
      exact hnd.sublist hsub
    refine ⟨hnd2, ?_⟩
    intro c hc
    have hne : t.asr_conn ≠ c := by
      intro heq
      rw [List.nodup_append] at hnd
      obtain ⟨_, h2, hdisj⟩ := hnd
      rcases List.mem_append.mp hc with hc1 | hc1
      · exact hdisj hc1 (heq ▸ List.mem_cons_self _ _)
      · rw [List.nodup_cons] at h2
        exact h2.1 (heq ▸ hc1)
    have hc' : c ∈ l1 ++ t.asr_conn :: l2 := by
      rcases List.mem_append.mp hc with hc1 | hc1
      · exact List.mem_append_left _ hc1
      · exact List.mem_append_right _ (List.mem_cons_of_mem _ hc1)
    show (release sys.pool t.asr_conn).get? c = some true
    unfold release
    rw [List.get?_eq_getElem?, List.getElem?_set_ne hne, ← List.get?_eq_getElem?]
    exact hheld c hc'
  | others pool1 _ hsame =>
    obtain ⟨hnd, hheld⟩ := h
    refine ⟨hnd, ?_⟩
    intro c hc
    have hc2 := hc
    simp only [active_conns, active, List.mem_map, List.mem_filter] at hc2
    obtain ⟨t, ⟨htmem, htphase⟩, htc⟩ := hc2
    have := hsame t htmem (by simpa using htphase)
    rw [htc] at this
    show pool1.get? c = some true
    rw [this]
    exact hheld c hc

theorem reachable_holds (sys : Sys) (h : Reachable sys) : HoldsConnections sys := by
  induction h with
  | init fd pool _ =>
    unfold HoldsConnections
    simp [send_response_threads, MCPSession.new, active_conns, active]
  | step sys sys1 _ hstep ih => exact holds_step sys sys1 hstep ih

theorem nodup_bounded_length (l : List Nat) (n : Nat) (hnd : l.Nodup)
    (hlt : ∀ c ∈ l, c < n) : l.length ≤ n := by
  have hsub : l ⊆ List.range n := fun c hc => List.mem_range.mpr (hlt c hc)
  have := (List.subperm_of_subset hnd hsub).length_le
  rwa [List.length_range] at this

/-- C19 (amended): in every reachable state the active submissions of a session (started
and not yet finished) each hold a pool connection of their own that is marked in use, so
the number of active submissions is at most the number of pool entries; it is not limited
to one. -/
theorem submissions_bounded_by_pool (sys : Sys) (h : Reachable sys) :
    (active_conns sys.sess.transcription_threads_).Nodup ∧
    (∀ c ∈ active_conns sys.sess.transcription_threads_, sys.pool.get? c = some true) ∧
    (active sys.sess.transcription_threads_).length ≤ sys.pool.length := by
  obtain ⟨hnd, hheld⟩ := reachable_holds sys h
  refine ⟨hnd, hheld, ?_⟩
  have hlen : (active sys.sess.transcription_threads_).length =
      (active_conns sys.sess.transcription_threads_).length := by
    simp [active_conns]
  rw [hlen]
  refine nodup_bounded_length _ _ hnd ?_
  intro c hc
  have hget := hheld c hc
  rcases Nat.lt_or_ge c sys.pool.length with hlt | hge
  · exact hlt
  · rw [List.get?_eq_none.mpr hge] at hget
    cases hget

theorem submissions_bounded_by_pool_witness :
    (active_conns two_threads.sess.transcription_threads_).Nodup ∧
    (∀ c ∈ active_conns two_threads.sess.transcription_threads_,
      two_threads.pool.get? c = some true) ∧
    (active two_threads.sess.transcription_threads_).length ≤ two_threads.pool.length :=
  submissions_bounded_by_pool two_threads
    (reachable_receive_frames _ _ (Reachable.init 3 [false, false] (by decide)) (by decide))

end Batch

/-! ## First occurrence -/

theorem findAt_first (pat : Bytes) (s : Bytes) : ∀ (i k : Nat), findAt pat s i = some k →
    ∃ d, k = i + d ∧ pat <+: s.drop d ∧ ∀ e, e < d → ¬ pat <+: s.drop e := by
  induction s with
  | nil =>
    intro i k h
    unfold findAt at h
    split at h
    · rename_i hp
      injection h with h
      exact ⟨0, by omega, List.isPrefixOf_iff_prefix.mp hp, fun e he => by omega⟩
    · cases h
  | cons c s ih =>
    intro i k h
    unfold findAt at h
    split at h
    · rename_i hp
      injection h with h
      exact ⟨0, by omega, List.isPrefixOf_iff_prefix.mp hp, fun e he => by omega⟩
    · rename_i hp
      obtain ⟨d, hk, hpre, hmin⟩ := ih (i + 1) k h
      refine ⟨d + 1, by omega, by simpa using hpre, ?_⟩
      intro e he
      cases e with
      | zero =>
        intro hcontra
        exact hp (List.isPrefixOf_iff_prefix.mpr (by simpa using hcontra))
      | succ e' =>
        have := hmin e' (by omega)
        simpa using this

theorem find_first (s pat : Bytes) (pos k : Nat) (h : find s pat pos = some k) :
    FirstAt s pat pos k := by
  unfold find at h
  split at h
  · obtain ⟨d, hk, hpre, hmin⟩ := findAt_first pat (s.drop pos) pos k h
    subst hk
    refine ⟨by omega, ?_, ?_⟩
    · rw [List.drop_drop] at hpre
      exact hpre
    · intro j hj hlt
      have := hmin (j - pos) (by omega)
      rw [List.drop_drop] at this
      have hjeq : pos + (j - pos) = j := by omega
      rwa [hjeq] at this
  · cases h

theorem quote_prefix_iff (s : Bytes) (j : Nat) : [DQUOTE] <+: s.drop j ↔ s[j]? = some DQUOTE := by
  constructor
  · rintro ⟨t, ht⟩
    have h0 : (s.drop j)[0]? = some DQUOTE := by rw [← ht]; simp
    simpa using h0
  · intro h
    have hlt : j < s.length := by
      rcases Nat.lt_or_ge j s.length with hlt | hge
      · exact hlt
      · rw [List.getElem?_eq_none hge] at h; cases h
    refine ⟨s.drop (j + 1), ?_⟩
    rw [List.drop_eq_getElem_cons hlt]
    have : s[j] = DQUOTE := by
      rw [List.getElem?_eq_getElem hlt] at h
      exact Option.some.inj h
    rw [this]
    rfl

namespace Stream

/-! ## Extracted text -/

theorem substr_no_quote (message : Bytes) (vs ve : Nat)
    (h : FirstAt message [DQUOTE] (vs + 1) ve) :
    DQUOTE ∉ substr message (vs + 1) (ve - vs - 1) := by
  obtain ⟨hle, _, hmin⟩ := h
  intro hmem
  obtain ⟨i, hi, hget⟩ := List.getElem_of_mem hmem
  have hlen : i < ve - vs - 1 := by
    have := hi
    simp only [substr, List.length_take] at this
    omega
  have hget2 : message[vs + 1 + i]? = some DQUOTE := by
    have h1 : (substr message (vs + 1) (ve - vs - 1))[i]? = some DQUOTE := by
      rw [List.getElem?_eq_getElem hi, hget]
    simp only [substr] at h1
    rw [List.getElem?_take_of_lt hlen, List.getElem?_drop] at h1
    exact h1
  exact hmin (vs + 1 + i) (by omega) (by omega) ((quote_prefix_iff message _).mpr hget2)

theorem non_duplicate_subset (last_message text : Bytes) :
    ∀ c ∈ non_duplicate last_message text, c ∈ text := by
  intro c hc
  unfold non_duplicate substrFrom at hc
  split at hc
  · exact List.mem_of_mem_drop hc
  · exact hc


theorem escape_text_loop_unquoted (d : Bytes) (hd : DQUOTE ∉ d) : ∀ init : Bytes,
    d.foldl (fun escaped c =>
      if c = DQUOTE then escaped ++ str "\\\""
      else if c = BACKSLASH then escaped ++ str "\\\\"
      else if c = NEWLINE then escaped ++ str "\\n"
      else escaped ++ [c]) init =
    d.foldl (fun escaped c =>
      if c = BACKSLASH then escaped ++ str "\\\\"
      else if c = NEWLINE then escaped ++ str "\\n"
      else escaped ++ [c]) init := by
  induction d with
  | nil => intro init; rfl
  | cons c rest ih =>
    intro init
    have hc : c ≠ DQUOTE := fun h => hd (h ▸ List.mem_cons_self c rest)
    have hrest : DQUOTE ∉ rest := fun h => hd (List.mem_cons_of_mem c h)
    rw [List.foldl_cons, List.foldl_cons, if_neg hc]
    exact ih hrest _

/-- C21: when `handle_message` extracts a text from a message, the text is the run of bytes
strictly between the first double quote at or after the first colon at or after the first
occurrence of `"text"` and the next double quote; hence the text holds no double quote, no
delta computed from it does, and the escaping loop gives what it would give without its
case for the double quote. -/
theorem extracted_text_has_no_quote (message text : Bytes)
    (h : extract_text message = some text) :
    (∃ text_pos colon_pos value_start value_end,
      FirstAt message (str "\"text\"") 0 text_pos ∧
      FirstAt message (str ":") text_pos colon_pos ∧
      FirstAt message (str "\"") colon_pos value_start ∧
      FirstAt message (str "\"") (value_start + 1) value_end ∧
      text = (message.drop (value_start + 1)).take (value_end - (value_start + 1))) ∧
    DQUOTE ∉ text ∧
    ∀ last_message : Bytes,
      DQUOTE ∉ non_duplicate last_message text ∧
      escape_text (non_duplicate last_message text) =
        escape_text_unquoted (non_duplicate last_message text) := by
  have hspec : ∃ text_pos colon_pos value_start value_end,
      FirstAt message (str "\"text\"") 0 text_pos ∧
      FirstAt message (str ":") text_pos colon_pos ∧
      FirstAt message (str "\"") colon_pos value_start ∧
      FirstAt message (str "\"") (value_start + 1) value_end ∧
      text = substr message (value_start + 1) (value_end - value_start - 1) := by
    unfold extract_text at h
    cases h1 : find message (str "\"text\"") 0 with
    | none => rw [h1] at h; cases h
    | some text_pos =>
      rw [h1] at h
      simp only at h
      cases h2 : find message (str ":") text_pos with
      | none => rw [h2] at h; cases h
      | some colon_pos =>
        rw [h2] at h
        simp only at h
        cases h3 : find message (str "\"") colon_pos with
        | none => rw [h3] at h; cases h
        | some value_start =>
          rw [h3] at h
          simp only at h
          cases h4 : find message (str "\"") (value_start + 1) with
          | none => rw [h4] at h; cases h
          | some value_end =>
            rw [h4] at h
            simp only [Option.some.injEq] at h
            exact ⟨text_pos, colon_pos, value_start, value_end, find_first _ _ _ _ h1,
              find_first _ _ _ _ h2, find_first _ _ _ _ h3, find_first _ _ _ _ h4, h.symm⟩
  obtain ⟨text_pos, colon_pos, value_start, value_end, f1, f2, f3, f4, htext⟩ := hspec
  have hno : DQUOTE ∉ text := by
    rw [htext]
    exact substr_no_quote message value_start value_end f4
  refine ⟨⟨text_pos, colon_pos, value_start, value_end, f1, f2, f3, f4, ?_⟩, hno, ?_⟩
  · rw [htext, substr, Nat.sub_sub]
  · intro last_message
    have hnd : DQUOTE ∉ non_duplicate last_message text :=
      fun hmem => hno (non_duplicate_subset last_message text DQUOTE hmem)
    exact ⟨hnd, escape_text_loop_unquoted _ hnd []⟩

theorem extracted_text_has_no_quote_witness :
    extract_text escaped_quote_event = some (str "say \\") ∧
    DQUOTE ∉ str "say \\" ∧
    escape_text (non_duplicate [] (str "say \\")) =
      escape_text_unquoted (non_duplicate [] (str "say \\")) ∧
    handle_message (some ctx_connected) escaped_quote_event =
      some { ctx_connected with
        result_queue := [str "\x7b\"type\":\"transcription\",\"text\":\"say \\\\\"\x7d"]
        last_message := str "say \\" } :=
  have h := extracted_text_has_no_quote escaped_quote_event (str "say \\") (by decide)
  ⟨by decide, h.2.1, (h.2.2 []).2, by decide⟩

end Stream

namespace Stream

/-! ## Queued deltas -/

theorem escape_text_eq_flatMap (d : Bytes) : escape_text d = d.flatMap escape_text_byte := by
  unfold escape_text
  have hbody : (fun (escaped : Bytes) (c : Nat) =>
      if c = DQUOTE then escaped ++ str "\\\""
      else if c = BACKSLASH then escaped ++ str "\\\\"
      else if c = NEWLINE then escaped ++ str "\\n"
      else escaped ++ [c]) = (fun escaped c => escaped ++ escape_text_byte c) := by
    funext escaped c
    unfold escape_text_byte
    split
    · rfl
    · split
      · rfl
      · split <;> rfl
  rw [hbody, foldl_append_flatMap, List.nil_append]

theorem unescape_escape_byte (c : Nat) (rest : Bytes) :
    unescape_loop false (escape_text_byte c ++ rest) = c :: unescape_loop false rest := by
  unfold escape_text_byte
  by_cases h1 : c = DQUOTE
  · subst h1; rfl
  · by_cases h2 : c = BACKSLASH
    · subst h2; rfl
    · by_cases h3 : c = NEWLINE
      · subst h3; rfl
      · rw [if_neg h1, if_neg h2, if_neg h3]
        show unescape_loop false (c :: rest) = _
        rw [unescape_loop, if_neg h2]

theorem unescape_escape_text (d : Bytes) : unescape_loop false (escape_text d) = d := by
  rw [escape_text_eq_flatMap]
  induction d with
  | nil => rfl
  | cons c rest ih => rw [List.flatMap_cons, unescape_escape_byte, ih]

theorem escape_text_injective : Function.Injective escape_text := by
  intro a b h
  have := congrArg (unescape_loop false) h
  rwa [unescape_escape_text, unescape_escape_text] at this

theorem transcription_fragment_injective : Function.Injective transcription_fragment := by
  intro a b h
  unfold transcription_fragment at h
  rw [List.append_assoc, List.append_assoc] at h
  have h1 := List.append_cancel_left h
  exact escape_text_injective (List.append_cancel_right h1)

theorem map_fragment_injective (xs ys : List Bytes)
    (h : xs.map transcription_fragment = ys.map transcription_fragment) : xs = ys :=
  List.map_injective_iff.mpr transcription_fragment_injective h

/-- C9: starting from an empty `last_message`, after `handle_message` has processed a
sequence of final events whose texts `t1 .. tn` are each a prefix of the next, the queue has
grown by exactly the fragments of a list of non-empty deltas whose concatenation, in queue
order, is `tn` (the empty string for an empty sequence); the queue determines these deltas,
since a fragment is built from one delta only. -/
theorem deltas_concat_to_last (ctx : StreamContext) (messages texts : List Bytes)
    (hstart : ctx.last_message = [])
    (hmsgs : List.Forall₂ FinalEvent messages texts)
    (hchain : List.Chain' (· <+: ·) texts) :
    ∃ (ctx1 : StreamContext) (deltas : List Bytes),
      read_messages (some ctx) messages = some ctx1 ∧
      ctx1.result_queue = ctx.result_queue ++ deltas.map transcription_fragment ∧
      (∀ d ∈ deltas, d ≠ []) ∧
      deltas.flatten = texts.getLastD [] ∧
      (∀ d ∈ deltas, unescape_loop false (escape_text d) = d) ∧
      (∀ deltas1 : List Bytes,
        ctx1.result_queue = ctx.result_queue ++ deltas1.map transcription_fragment →
        deltas1 = deltas) := by
  have hc : List.Chain (· <+: ·) ctx.last_message texts := by
    rw [hstart]
    cases texts with
    | nil => exact List.Chain.nil
    | cons t ts => exact List.Chain.cons (List.nil_prefix) hchain
  obtain ⟨ctx1, deltas, hrun, hq, hne, hcat, _⟩ := read_messages_chain messages texts hmsgs ctx hc
  rw [hstart, List.nil_append] at hcat
  refine ⟨ctx1, deltas, hrun, hq, hne, hcat, fun d _ => unescape_escape_text d, ?_⟩
  intro deltas1 hq1
  rw [hq] at hq1
  exact (map_fragment_injective _ _ (List.append_cancel_left hq1)).symm

theorem deltas_concat_to_last_witness :
    (∃ (ctx1 : StreamContext) (deltas : List Bytes),
      read_messages (some ctx_connected)
        [final_event "hel", final_event "hello", final_event "hello", final_event "hello world"]
        = some ctx1 ∧
      ctx1.result_queue = ctx_connected.result_queue ++ deltas.map transcription_fragment ∧
      (∀ d ∈ deltas, d ≠ []) ∧
      deltas.flatten =
        [str "hel", str "hello", str "hello", str "hello world"].getLastD [] ∧
      (∀ d ∈ deltas, unescape_loop false (escape_text d) = d) ∧
      (∀ deltas1 : List Bytes,
        ctx1.result_queue = ctx_connected.result_queue ++ deltas1.map transcription_fragment →
        deltas1 = deltas)) ∧
    read_messages (some ctx_connected)
        [final_event "hel", final_event "hello", final_event "hello", final_event "hello world"]
      = some { ctx_connected with
          result_queue :=
            [str "\x7b\"type\":\"transcription\",\"text\":\"hel\"\x7d",
             str "\x7b\"type\":\"transcription\",\"text\":\"lo\"\x7d",
             str "\x7b\"type\":\"transcription\",\"text\":\" world\"\x7d"]
          last_message := str "hello world" } :=
  ⟨deltas_concat_to_last ctx_connected
    [final_event "hel", final_event "hello", final_event "hello", final_event "hello world"]
    [str "hel", str "hello", str "hello", str "hello world"]
    rfl
    (List.Forall₂.cons ⟨by decide, by decide, by decide⟩
      (List.Forall₂.cons ⟨by decide, by decide, by decide⟩
        (List.Forall₂.cons ⟨by decide, by decide, by decide⟩
          (List.Forall₂.cons ⟨by decide, by decide, by decide⟩ List.Forall₂.nil))))
    (List.chain'_cons.mpr ⟨by decide,
      List.chain'_cons.mpr ⟨by decide,
        List.chain'_cons.mpr ⟨by decide, List.chain'_singleton _⟩⟩⟩),
   by decide⟩

end Stream

end AsrMcp
